import Mathlib

/-!
Verification of the local DAG execution engine of the `kfp` SDK
(`sdk/python/kfp/local/dag_orchestrator.py` and
`sdk/python/kfp/local/executor_output_utils.py`), as a shallow embedding.

Python dictionaries are modelled as association lists with
insertion-order-preserving, replace-in-place update; protobuf messages as
Lean structures over the fields the engine reads; `float` numbers as exact
rationals (the engine performs no floating-point arithmetic: the only
numeric operation is Python `int()` truncation); fallible code as `Except`.
External collaborators (the step launcher, the importer, `json.loads`, the
filesystem) are passed in as explicit function/data parameters.
-/

namespace KfpLocal

/-- Python-dict lookup on an association list (first binding wins, as keys
are unique in a Python dict). -/
def dictGet {α : Type} (d : List (String × α)) (k : String) : Option α :=
  (d.find? (fun kv => kv.1 == k)).map (fun kv => kv.2)

/-- Python-dict update `d[k] = v`: replaces the first binding of `k` in
place, or appends a new binding if `k` is absent. -/
def dictInsert {α : Type} : List (String × α) → String → α → List (String × α)
  | [], k, v => [(k, v)]
  | kv :: rest, k, v =>
      if kv.1 == k then (k, v) :: rest else kv :: dictInsert rest k v

/-- Python `{**a, **b}`: entries of `b` override entries of `a`. -/
def dictUnion {α : Type} (a b : List (String × α)) : List (String × α) :=
  b.foldl (fun acc kv => dictInsert acc kv.1 kv.2) a

/-- `kfp.local.status.Status`. -/
inductive Status where
  | SUCCESS
  | FAILURE
deriving DecidableEq, Repr

/-- The fields of `pipeline_spec_pb2.RuntimeArtifact` the engine reads:
the artifact type schema (copied from `ExecutorInput` by
`add_type_to_executor_output`), the URI, and an opaque rendering of the
rest (name/metadata), which the engine never inspects. -/
structure RuntimeArtifact where
  type_schema : String
  uri : String
  metadata : String
deriving DecidableEq, Repr

/-- A native Python value as produced/consumed by the engine: scalars,
lists, dicts, plus `dsl.Artifact` values and lists thereof.  Python
`float`s are carried as exact rationals (no float arithmetic occurs). -/
inductive PyValue where
  | none
  | float (q : ℚ)
  | int (n : ℤ)
  | str (s : String)
  | bool (b : Bool)
  | list (xs : List PyValue)
  | dict (xs : List (String × PyValue))
  | artifact (a : RuntimeArtifact)
  | artifactList (l : List RuntimeArtifact)

/-- A `google.protobuf.struct_pb2.Value`: the tagged-union wire value.
`unset` is a `Value` message with no field set (`HasField` false for every
tag), which `pb2_value_to_python` rejects. -/
inductive PbValue where
  | nullValue
  | numberValue (q : ℚ)
  | stringValue (s : String)
  | boolValue (b : Bool)
  | structValue (fields : List (String × PbValue))
  | listValue (values : List PbValue)
  | unset

/-- `pipeline_spec_pb2.ParameterType.ParameterTypeEnum`. -/
inductive ParameterTypeEnum where
  | PARAMETER_TYPE_ENUM_UNSPECIFIED
  | NUMBER_DOUBLE
  | NUMBER_INTEGER
  | STRING
  | BOOLEAN
  | LIST
  | STRUCT
deriving DecidableEq, Repr

mutual

/-- `executor_output_utils.pb2_value_to_python`: converts a protobuf
`Value` to the corresponding Python type; raises on a value with no
recognized tag. -/
def pb2_value_to_python : PbValue → Except String PyValue
  | .nullValue => .ok .none
  | .numberValue q => .ok (.float q)
  | .stringValue s => .ok (.str s)
  | .boolValue b => .ok (.bool b)
  | .structValue fields => (pb2_struct_fields_to_python fields).map .dict
  | .listValue values => (pb2_value_list_to_python values).map .list
  | .unset => .error "Unknown value type"

/-- The list comprehension in the `list_value` branch of
`pb2_value_to_python`. -/
def pb2_value_list_to_python : List PbValue → Except String (List PyValue)
  | [] => .ok []
  | v :: rest => do
      let v' ← pb2_value_to_python v
      let rest' ← pb2_value_list_to_python rest
      .ok (v' :: rest')

/-- The dict comprehension of `pb2_struct_to_python`, over the struct's
fields. -/
def pb2_struct_fields_to_python :
    List (String × PbValue) → Except String (List (String × PyValue))
  | [] => .ok []
  | kv :: rest => do
      let v' ← pb2_value_to_python kv.2
      let rest' ← pb2_struct_fields_to_python rest
      .ok ((kv.1, v') :: rest')

end

/-- `executor_output_utils.pb2_struct_to_python`: converts a protobuf
`Struct` to a dict. -/
def pb2_struct_to_python (fields : List (String × PbValue)) :
    Except String (List (String × PyValue)) :=
  pb2_struct_fields_to_python fields

mutual

/-- Modelled from the spec: `pipeline_spec_builder.to_protobuf_value`
(`kfp/compiler/pipeline_spec_builder.py`, not under `src/`), the
`toWire` direction of the structured-value codec (spec 4.1): recursively
wraps a native value in the tagged union; both ints and floats map to the
single numeric tag. -/
def to_protobuf_value : PyValue → Except String PbValue
  | .none => .ok .nullValue
  | .bool b => .ok (.boolValue b)
  | .int n => .ok (.numberValue (n : ℚ))
  | .float q => .ok (.numberValue q)
  | .str s => .ok (.stringValue s)
  | .list xs => (to_protobuf_value_list xs).map .listValue
  | .dict xs => (to_protobuf_value_fields xs).map .structValue
  | .artifact _ => .error "Value cannot be converted to protobuf Value"
  | .artifactList _ => .error "Value cannot be converted to protobuf Value"

/-- Elementwise `to_protobuf_value` over a Python list. -/
def to_protobuf_value_list : List PyValue → Except String (List PbValue)
  | [] => .ok []
  | v :: rest => do
      let v' ← to_protobuf_value v
      let rest' ← to_protobuf_value_list rest
      .ok (v' :: rest')

/-- Elementwise `to_protobuf_value` over a Python dict's entries. -/
def to_protobuf_value_fields :
    List (String × PyValue) → Except String (List (String × PbValue))
  | [] => .ok []
  | kv :: rest => do
      let v' ← to_protobuf_value kv.2
      let rest' ← to_protobuf_value_fields rest
      .ok ((kv.1, v') :: rest')

end

/-- Python `int()` truncation toward zero, on the exact rational carried
by a Python float: `num.div den` is T-division and `den > 0`. -/
def pytrunc (q : ℚ) : ℤ :=
  Int.tdiv q.num (q.den : ℤ)

/-- Python `int(x)` as applied by `cast_floats_as_ints_to_floats`:
truncates floats toward zero, keeps ints, converts bools, parses integer
strings, and raises a `TypeError` on anything else. -/
def pyInt : PyValue → Except String ℤ
  | .float q => .ok (pytrunc q)
  | .int n => .ok n
  | .bool b => .ok (if b then 1 else 0)
  | .str s =>
      match s.toInt? with
      | some n => .ok n
      | Option.none => .error "ValueError: invalid literal for int()"
  | _ => .error "TypeError: int() argument must be a number"

/-! ## The pipeline-spec messages (`pipeline_spec_pb2`), over the fields the
engine reads.  Protobuf map fields are association lists; reading a missing
key of a protobuf map yields the default instance, as in Python. -/

/-- One entry of `ComponentInputsSpec.parameters`
(`ComponentInputsSpec.ParameterSpec`). -/
structure InputParameterSpec where
  parameter_type : ParameterTypeEnum
  default_value : PbValue

/-- `pipeline_spec_pb2.ComponentInputsSpec`: declared parameter inputs and
declared artifact input names of a component. -/
structure ComponentInputsSpec where
  parameters : List (String × InputParameterSpec)
  artifacts : List String

/-- One entry of `ComponentOutputsSpec.parameters`. -/
structure OutputParameterSpec where
  parameter_type : ParameterTypeEnum

/-- Default instance of `OutputParameterSpec`, returned when a protobuf map
is read at a missing key. -/
instance : Inhabited OutputParameterSpec :=
  ⟨⟨.PARAMETER_TYPE_ENUM_UNSPECIFIED⟩⟩

/-- One entry of `ComponentOutputsSpec.artifacts`. -/
structure OutputArtifactSpec where
  is_artifact_list : Bool

instance : Inhabited OutputArtifactSpec := ⟨⟨false⟩⟩

/-- `pipeline_spec_pb2.ComponentOutputsSpec`. -/
structure ComponentOutputsSpec where
  parameters : List (String × OutputParameterSpec)
  artifacts : List (String × OutputArtifactSpec)

/-- One parameter entry of `pipeline_spec_pb2.TaskInputsSpec`: the oneof
among an upstream-task output reference, a runtime value, a parent
component input reference, and a final-status binding; `unset` models a
`TaskInputsSpec.InputParameterSpec` with none of these set.  A
`runtime_value` whose oneof is not `constant` is `runtimeValueNonConstant`. -/
inductive ParamInput where
  | taskOutputParameter (producer_task output_parameter_key : String)
  | runtimeValueConstant (v : PbValue)
  | runtimeValueNonConstant
  | componentInputParameter (name : String)
  | taskFinalStatus
  | unset

/-- One artifact entry of `pipeline_spec_pb2.TaskInputsSpec`. -/
inductive ArtifactInput where
  | taskOutputArtifact (producer_task output_artifact_key : String)
  | componentInputArtifact (name : String)
  | unset

/-- `pipeline_spec_pb2.TaskInputsSpec`. -/
structure TaskInputsSpec where
  parameters : List (String × ParamInput)
  artifacts : List (String × ArtifactInput)

instance : Inhabited TaskInputsSpec := ⟨⟨[], []⟩⟩

/-- `pipeline_spec_pb2.PipelineTaskSpec`, over the fields the engine reads:
the component reference, the input wiring, the conditional-trigger
expression (`trigger_policy.condition`, empty when absent) and whether the
`iterator` oneof is set. -/
structure TaskSpec where
  component_ref_name : String
  inputs : TaskInputsSpec
  trigger_policy_condition : String
  has_iterator : Bool

instance : Inhabited TaskSpec := ⟨⟨"", default, "", false⟩⟩

/-- One entry of `DagOutputsSpec.parameters`
(`DagOutputsSpec.ParameterSelectorSpec`): the `kind` oneof. -/
inductive ParameterSelectorSpec where
  | valueFromParameter (producer_subtask output_parameter_key : String)
  | valueFromOneof
  | unset

/-- One entry of `DagOutputsSpec.artifacts`: its list of
`ArtifactSelector`s, each a (producer_subtask, output_artifact_key) pair. -/
structure ArtifactSelectorSpec where
  artifact_selectors : List (String × String)

/-- `pipeline_spec_pb2.DagOutputsSpec`. -/
structure DagOutputsSpec where
  parameters : List (String × ParameterSelectorSpec)
  artifacts : List (String × ArtifactSelectorSpec)

/-- `pipeline_spec_pb2.DagSpec`: the task map (insertion-ordered, as
iterated by the sequencer) and the declared output wiring. -/
structure DagSpec where
  tasks : List (String × TaskSpec)
  outputs : DagOutputsSpec

instance : Inhabited DagSpec := ⟨⟨[], ⟨[], []⟩⟩⟩

/-- The `implementation` oneof of `pipeline_spec_pb2.ComponentSpec`. -/
inductive Implementation where
  | dag (d : DagSpec)
  | executor_label (label : String)
  | unset

/-- `pipeline_spec_pb2.ComponentSpec`. -/
structure ComponentSpec where
  input_definitions : ComponentInputsSpec
  output_definitions : ComponentOutputsSpec
  implementation : Implementation

/-- Reading the `dag` field of a `ComponentSpec`: the default (empty)
`DagSpec` when the implementation oneof is not `dag`, as in protobuf. -/
def ComponentSpec.dag (cs : ComponentSpec) : DagSpec :=
  match cs.implementation with
  | .dag d => d
  | _ => default

/-- The `spec` oneof of
`pipeline_spec_pb2.PipelineDeploymentConfig.ExecutorSpec`: only the kind is
inspected by the engine (the payload goes to an external collaborator). -/
inductive ExecutorSpec where
  | importer
  | container
  | other

/-- `pipeline_spec_pb2.ExecutorOutput`: the step's raw structured result
message. -/
structure ExecutorOutput where
  parameter_values : List (String × PbValue)
  artifacts : List (String × List RuntimeArtifact)

/-- One entry of `ExecutorInput.Outputs.parameters`: the designated
output-file path for a parameter written via `dsl.OutputPath`. -/
structure OutputParameter where
  output_file : String

/-- The `outputs` field of `pipeline_spec_pb2.ExecutorInput`. -/
structure ExecutorInputOutputs where
  parameters : List (String × OutputParameter)
  artifacts : List (String × List RuntimeArtifact)

/-- `pipeline_spec_pb2.ExecutorInput`, over the fields the normalizer
reads. -/
structure ExecutorInput where
  outputs : ExecutorInputOutputs

/-! ## Executor-output normalization (`executor_output_utils.py`).
The filesystem is a path → content map; `json.loads` is an explicit
function parameter. -/

/-- The local filesystem visible to the normalizer: a map from path to the
file's raw text; `os.path.exists` is key membership. -/
abbrev FileSystem : Type := List (String × String)

/-- `executor_output_utils.cast_floats_as_ints_to_floats`: casts the
output fields typed `NUMBER_INTEGER` to a Python int; Python raises a
`KeyError` when such a field is absent from the dict. -/
def cast_floats_as_ints_to_floats
    (outputs_dict : List (String × PyValue)) :
    List String → Except String (List (String × PyValue))
  | [] => .ok outputs_dict
  | float_output_key :: rest =>
      match dictGet outputs_dict float_output_key with
      | Option.none => .error "KeyError"
      | some v => do
          let n ← pyInt v
          cast_floats_as_ints_to_floats
            (dictInsert outputs_dict float_output_key (.int n)) rest

/-- `executor_output_utils.special_dsl_outputpath_read`: reads a
`dsl.OutputPath` file, deserializing as JSON except for string-typed
outputs, whose raw text is used verbatim. -/
def special_dsl_outputpath_read (files : FileSystem)
    (jsonLoads : String → Except String PyValue)
    (output_file : String) (is_string : Bool) : Except String PyValue :=
  match dictGet files output_file with
  | Option.none => .error "FileNotFoundError"
  | some parameter_value =>
      if is_string then .ok (.str parameter_value)
      else jsonLoads parameter_value

/-- The loop of `merge_dsl_output_file_parameters_to_executor_output` over
`executor_input.outputs.parameters`, acting on the `parameter_values`
map. -/
def merge_output_file_parameters_go (files : FileSystem)
    (jsonLoads : String → Except String PyValue)
    (component_spec : ComponentSpec) :
    List (String × OutputParameter) → List (String × PbValue) →
      Except String (List (String × PbValue))
  | [], values => .ok values
  | (parameter_key, output_parameter) :: rest, values =>
      if (dictGet files output_parameter.output_file).isSome then do
        let is_string :=
          ((dictGet component_spec.output_definitions.parameters
              parameter_key).getD default).parameter_type
            == ParameterTypeEnum.STRING
        let parameter_value ← special_dsl_outputpath_read files jsonLoads
          output_parameter.output_file is_string
        let pb ← to_protobuf_value parameter_value
        merge_output_file_parameters_go files jsonLoads component_spec rest
          (dictInsert values parameter_key pb)
      else
        merge_output_file_parameters_go files jsonLoads component_spec rest
          values

/-- `executor_output_utils.merge_dsl_output_file_parameters_to_executor_output`:
for every output parameter of the `ExecutorInput` whose designated output
file exists, reads the file (string-typed outputs verbatim, the rest as
JSON) and writes the re-encoded value over the message's parameter map. -/
def merge_dsl_output_file_parameters_to_executor_output
    (files : FileSystem) (jsonLoads : String → Except String PyValue)
    (executor_input : ExecutorInput) (executor_output : ExecutorOutput)
    (component_spec : ComponentSpec) : Except String ExecutorOutput := do
  let mut_values ← merge_output_file_parameters_go files jsonLoads
    component_spec executor_input.outputs.parameters
    executor_output.parameter_values
  .ok { executor_output with parameter_values := mut_values }

/-- `executor_output_utils.runtime_artifact_to_dsl_artifact`: converts a
`RuntimeArtifact` message to the `dsl.Artifact` instance carrying the same
schema/uri/metadata (the construction itself lives in the external
`kfp.dsl.executor` collaborator; the engine only passes the value on). -/
def runtime_artifact_to_dsl_artifact (runtime_artifact : RuntimeArtifact) :
    RuntimeArtifact :=
  runtime_artifact

/-- `executor_output_utils.artifact_list_to_dsl_artifact`: an
`ArtifactList` becomes a Python list when the declared output is a true
list, and its single element otherwise; `dsl_artifacts[0]` on an empty
list raises an `IndexError`. -/
def artifact_list_to_dsl_artifact (artifact_list : List RuntimeArtifact)
    (is_artifact_list : Bool) : Except String PyValue :=
  let dsl_artifacts := artifact_list.map runtime_artifact_to_dsl_artifact
  if is_artifact_list then .ok (.artifactList dsl_artifacts)
  else
    match dsl_artifacts with
    | [] => .error "IndexError: list index out of range"
    | a :: _ => .ok (.artifact a)

/-- The nested loop of `add_type_to_executor_output` over
`executor_output.artifacts`. -/
def add_type_go (executor_input : ExecutorInput) :
    List (String × List RuntimeArtifact) →
      Except String (List (String × List RuntimeArtifact))
  | [] => .ok []
  | (key, artifact_list) :: rest =>
      match (dictGet executor_input.outputs.artifacts key).getD [] with
      | [] => .error "IndexError: list index out of range"
      | input_artifact :: _ => do
          let rest' ← add_type_go executor_input rest
          .ok ((key,
            artifact_list.map
              (fun a => { a with type_schema := input_artifact.type_schema }))
            :: rest')

/-- `executor_output_utils.add_type_to_executor_output`: copies each output
artifact's type schema from the `ExecutorInput` message onto the
`ExecutorOutput` message; `artifacts[0]` on a missing/empty input entry
raises an `IndexError`. -/
def add_type_to_executor_output (executor_input : ExecutorInput)
    (executor_output : ExecutorOutput) : Except String ExecutorOutput := do
  let arts ← add_type_go executor_input executor_output.artifacts
  .ok { executor_output with artifacts := arts }

/-- The dict comprehension over `executor_output.parameter_values` in
`get_outputs_from_executor_output`. -/
def decode_parameter_values :
    List (String × PbValue) → Except String (List (String × PyValue))
  | [] => .ok []
  | (param_name, value) :: rest => do
      let v ← pb2_value_to_python value
      let rest' ← decode_parameter_values rest
      .ok ((param_name, v) :: rest')

/-- The dict comprehension over `executor_output.artifacts` in
`get_outputs_from_executor_output`. -/
def decode_output_artifacts
    (output_artifact_definitions : List (String × OutputArtifactSpec)) :
    List (String × List RuntimeArtifact) →
      Except String (List (String × PyValue))
  | [] => .ok []
  | (artifact_name, artifact_list) :: rest => do
      let v ← artifact_list_to_dsl_artifact artifact_list
        ((dictGet output_artifact_definitions artifact_name).getD
          default).is_artifact_list
      let rest' ← decode_output_artifacts output_artifact_definitions rest
      .ok ((artifact_name, v) :: rest')

/-- `executor_output_utils.get_outputs_from_executor_output`: attaches
artifact types, merges `dsl.OutputPath` file outputs, decodes every
parameter and artifact to native form, and re-types the
`NUMBER_INTEGER`-declared outputs as ints. -/
def get_outputs_from_executor_output (files : FileSystem)
    (jsonLoads : String → Except String PyValue)
    (executor_output : ExecutorOutput) (executor_input : ExecutorInput)
    (component_spec : ComponentSpec) :
    Except String (List (String × PyValue)) := do
  let executor_output ← add_type_to_executor_output executor_input
    executor_output
  let executor_output ← merge_dsl_output_file_parameters_to_executor_output
    files jsonLoads executor_input executor_output component_spec
  let output_parameters ← decode_parameter_values
    executor_output.parameter_values
  let output_artifacts ← decode_output_artifacts
    component_spec.output_definitions.artifacts executor_output.artifacts
  let outputs_dict := dictUnion output_parameters output_artifacts
  let outputs_typed_int :=
    (component_spec.output_definitions.parameters.filter
      (fun kv => kv.2.parameter_type
        == ParameterTypeEnum.NUMBER_INTEGER)).map (fun kv => kv.1)
  cast_floats_as_ints_to_floats outputs_dict outputs_typed_int

/-! ## The I/O store and the DAG orchestrator (`dag_orchestrator.py`). -/

/-- Modelled from the spec: `kfp.local.io.IOStore` (`kfp/local/io.py`, not
under `src/`), spec 4.2: two partitions per graph level — parent inputs
(written once at graph entry) and per-task outputs (write-once per
(task, key); a second write is a programming error); lookups fail loudly
when the entry does not exist. -/
structure IOStore where
  parent_inputs : List (String × PyValue)
  task_outputs : List ((String × String) × PyValue)

/-- A fresh, empty store (`io.IOStore()`). -/
def IOStore.empty : IOStore := ⟨[], []⟩

/-- Modelled from the spec: `IOStore.put_parent_input`. -/
def IOStore.put_parent_input (s : IOStore) (name : String) (value : PyValue) :
    IOStore :=
  { s with parent_inputs := dictInsert s.parent_inputs name value }

/-- Modelled from the spec: `IOStore.get_parent_input`; fails loudly on a
missing entry. -/
def IOStore.get_parent_input (s : IOStore) (name : String) :
    Except String PyValue :=
  match dictGet s.parent_inputs name with
  | Option.none => .error ("Parent input not found: " ++ name)
  | some v => .ok v

/-- Modelled from the spec: `IOStore.put_task_output`, insert-or-fail
(write-once per (task name, output key)). -/
def IOStore.put_task_output (s : IOStore) (task_name key : String)
    (value : PyValue) : Except String IOStore :=
  if (s.task_outputs.find? (fun kv => kv.1 == (task_name, key))).isSome then
    .error ("Task output already recorded: " ++ task_name ++ "." ++ key)
  else
    .ok { s with task_outputs := s.task_outputs ++ [((task_name, key), value)] }

/-- Modelled from the spec: `IOStore.get_task_output`; fails loudly on a
missing entry. -/
def IOStore.get_task_output (s : IOStore) (task_name key : String) :
    Except String PyValue :=
  match (s.task_outputs.find? (fun kv => kv.1 == (task_name, key))).map
      (fun kv => kv.2) with
  | Option.none => .error ("Task output not found: " ++ task_name ++ "." ++ key)
  | some v => .ok v

/-- `dag_orchestrator.validate_task_spec_not_loop_or_condition`: hard
error on a conditional trigger or a set iterator oneof. -/
def validate_task_spec_not_loop_or_condition (task_spec : TaskSpec) :
    Except String Unit :=
  if task_spec.trigger_policy_condition ≠ "" then
    .error "dsl.Condition is not supported by local pipeline execution."
  else if task_spec.has_iterator then
    .error "dsl.ParallelFor is not supported by local pipeline execution."
  else
    .ok ()

/-- The loop of `bind_defaults_to_dag_arguments` over
`dag_inputs_spec.parameters`, accumulating
`dag_arguments_with_defaults`. -/
def bind_defaults_go (dag_arguments : List (String × PyValue)) :
    List (String × InputParameterSpec) →
      Except String (List (String × PyValue))
  | [] => .ok []
  | (input_name, input_spec) :: rest => do
      let v ← match dictGet dag_arguments input_name with
        | Option.none => pb2_value_to_python input_spec.default_value
        | some v => .ok v
      let rest' ← bind_defaults_go dag_arguments rest
      .ok ((input_name, v) :: rest')

/-- `dag_orchestrator.bind_defaults_to_dag_arguments`: builds the DAG's
complete argument dict by iterating the declared parameter inputs,
decoding the declared default for every parameter absent from the
user-provided arguments. -/
def bind_defaults_to_dag_arguments (dag_arguments : List (String × PyValue))
    (dag_inputs_spec : ComponentInputsSpec) :
    Except String (List (String × PyValue)) :=
  bind_defaults_go dag_arguments dag_inputs_spec.parameters

/-- The parameter loop of `dag_orchestrator.make_task_arguments`. -/
def make_task_parameter_arguments (io_store : IOStore) :
    List (String × ParamInput) → Except String (List (String × PyValue))
  | [] => .ok []
  | (input_name, input_spec) :: rest => do
      let v ← match input_spec with
        | .taskOutputParameter producer key =>
            io_store.get_task_output producer key
        | .runtimeValueConstant c => pb2_value_to_python c
        | .runtimeValueNonConstant => .error "Expected constant."
        | .componentInputParameter name => io_store.get_parent_input name
        | .taskFinalStatus =>
            .error "dsl.ExitHandler is not yet support for local execution."
        | .unset => .error ("Invalid or missing input for " ++ input_name)
      let rest' ← make_task_parameter_arguments io_store rest
      .ok ((input_name, v) :: rest')

/-- The artifact loop of `dag_orchestrator.make_task_arguments`. -/
def make_task_artifact_arguments (io_store : IOStore) :
    List (String × ArtifactInput) → Except String (List (String × PyValue))
  | [] => .ok []
  | (input_name, input_spec) :: rest => do
      let v ← match input_spec with
        | .taskOutputArtifact producer key =>
            io_store.get_task_output producer key
        | .componentInputArtifact name => io_store.get_parent_input name
        | .unset => .error ("Invalid or missing input for " ++ input_name)
      let rest' ← make_task_artifact_arguments io_store rest
      .ok ((input_name, v) :: rest')

/-- `dag_orchestrator.make_task_arguments`: resolves each bound input of a
task from the I/O store (upstream output, embedded constant, or parent
input), parameters first, then artifacts. -/
def make_task_arguments (task_inputs_spec : TaskInputsSpec)
    (io_store : IOStore) : Except String (List (String × PyValue)) := do
  let params ← make_task_parameter_arguments io_store
    task_inputs_spec.parameters
  let arts ← make_task_artifact_arguments io_store task_inputs_spec.artifacts
  .ok (params ++ arts)

/-- The loop of `get_dag_output_parameters` over
`dag_outputs_spec.parameters`. -/
def get_dag_output_parameters_go (io_store : IOStore) :
    List (String × ParameterSelectorSpec) →
      Except String (List (String × PyValue))
  | [] => .ok []
  | (root_output_key, selector) :: rest => do
      let v ← match selector with
        | .valueFromParameter producer_subtask output_parameter_key =>
            io_store.get_task_output producer_subtask output_parameter_key
        | .valueFromOneof =>
            .error "dsl.OneOf is not yet supported in local execution."
        | .unset => .error "Got unknown parameter_selector_spec kind"
      let rest' ← get_dag_output_parameters_go io_store rest
      .ok ((root_output_key, v) :: rest')

/-- `dag_orchestrator.get_dag_output_parameters`. -/
def get_dag_output_parameters (dag_outputs_spec : DagOutputsSpec)
    (io_store : IOStore) : Except String (List (String × PyValue)) :=
  get_dag_output_parameters_go io_store dag_outputs_spec.parameters

/-- The loop of `get_dag_output_artifacts` over
`dag_outputs_spec.artifacts`. -/
def get_dag_output_artifacts_go (io_store : IOStore) :
    List (String × ArtifactSelectorSpec) →
      Except String (List (String × PyValue))
  | [] => .ok []
  | (root_output_key, selector_spec) :: rest => do
      let v ← match selector_spec.artifact_selectors with
        | [selector] => io_store.get_task_output selector.1 selector.2
        | _ => .error "Expected 1 artifact in ArtifactSelectorSpec."
      let rest' ← get_dag_output_artifacts_go io_store rest
      .ok ((root_output_key, v) :: rest')

/-- `dag_orchestrator.get_dag_output_artifacts`: requires exactly one
artifact selector per declared artifact output. -/
def get_dag_output_artifacts (dag_outputs_spec : DagOutputsSpec)
    (io_store : IOStore) : Except String (List (String × PyValue)) :=
  get_dag_output_artifacts_go io_store dag_outputs_spec.artifacts

/-- `dag_orchestrator.get_dag_outputs`: the union of the projected output
parameters and output artifacts. -/
def get_dag_outputs (dag_outputs_spec : DagOutputsSpec) (io_store : IOStore) :
    Except String (List (String × PyValue)) := do
  let output_params ← get_dag_output_parameters dag_outputs_spec io_store
  let output_artifacts ← get_dag_output_artifacts dag_outputs_spec io_store
  .ok (dictUnion output_params output_artifacts)

/-! ## The topological task sequencer (`graph_utils.py`, spec-modelled). -/

/-- The dependency edges of a task: the producer tasks whose outputs its
input wiring consumes (spec 4.3: an edge A → B exists whenever B's input
wiring references one of A's outputs). -/
def taskDependencies (tis : TaskInputsSpec) : List String :=
  tis.parameters.filterMap
    (fun kv => match kv.2 with
      | .taskOutputParameter producer _ => some producer
      | _ => Option.none)
  ++ tis.artifacts.filterMap
    (fun kv => match kv.2 with
      | .taskOutputArtifact producer _ => some producer
      | _ => Option.none)

/-- Whether every dependency of `p` has already been placed. -/
def taskReady (placed : List String) (p : String × TaskSpec) : Bool :=
  (taskDependencies p.2.inputs).all (fun d => placed.contains d)

/-- Picks the first pending task all of whose dependencies are placed
(tie-break: source declaration order) and removes it from the pending
list. -/
def pickReady (placed : List String) :
    List (String × TaskSpec) →
      Option ((String × TaskSpec) × List (String × TaskSpec))
  | [] => Option.none
  | p :: rest =>
      if taskReady placed p then some (p, rest)
      else (pickReady placed rest).map (fun pr => (pr.1, p :: pr.2))

/-- The selection loop of the sequencer: repeatedly place a ready pending
task; the fuel (initially the task count) bounds the rounds, and running
out with tasks still pending means no task was ever ready — a cycle. -/
def topoGo : ℕ → List String → List (String × TaskSpec) →
    Except String (List String)
  | _, placed, [] => .ok placed
  | 0, _, _ :: _ => .error "Cycle detected in the task dependency graph."
  | Nat.succ fuel, placed, pending =>
      match pickReady placed pending with
      | Option.none => .error "Cycle detected in the task dependency graph."
      | some (p, rest) => topoGo fuel (placed ++ [p.1]) rest

/-- Modelled from the spec: `graph_utils.topological_sort_tasks`
(`kfp/local/graph_utils.py`, not under `src/`), spec 4.3: orders the task
map so every task appears after all tasks whose outputs it directly
consumes, tie-broken by declaration order, failing on a cycle.  The
returned sequence is a stack for the runner to pop from, so it holds the
execution order reversed. -/
def topological_sort_tasks (tasks : List (String × TaskSpec)) :
    Except String (List String) :=
  (topoGo tasks.length [] tasks).map List.reverse

/-! ## The DAG runner (`dag_orchestrator.run_dag`).

The two external collaborators (`importer_handler.run_importer` and
`task_dispatcher.run_single_task_implementation`, both outside this core)
are function parameters returning an already-typed output map and a
status, keyed by the component name and the resolved arguments.  For the
temporal claims the runner is instrumented with an observation trace: the
ordered list of `(task_name, returned status)` leaf-dispatch events,
nested levels spliced in place; a raised exception carries the events
observed before it. -/

/-- A dispatch trace: one `(task name, status)` event per collaborator
call, in call order. -/
abbrev Trace : Type := List (String × Status)

/-- The external collaborators dispatched to by the runner. -/
structure Collaborators where
  run_importer : String → List (String × PyValue) →
    List (String × PyValue) × Status
  run_single_task_implementation : String → List (String × PyValue) →
    List (String × PyValue) × Status

/-- The result of one graph level: output map, status, optional failing
task name, and the observed dispatch trace. -/
abbrev RunResult : Type :=
  List (String × PyValue) × Status × Option String × Trace

/-- The `put_task_output` loop of `run_dag`'s success branch. -/
def put_task_outputs (io_store : IOStore) (task_name : String) :
    List (String × PyValue) → Except String IOStore
  | [] => .ok io_store
  | (key, output) :: rest => do
      let s ← io_store.put_task_output task_name key output
      put_task_outputs s task_name rest

/-- One iteration of `run_dag`'s task loop up to the status check:
validates the task spec, resolves the component, dispatches by
implementation kind (recursing via `recur` for a nested graph with a
fresh store), and returns the task's outputs, status, failing-task name
and dispatch events. -/
def execute_task
    (recur : ComponentSpec → List (String × PyValue) →
      Except (String × Trace) RunResult)
    (collabs : Collaborators)
    (components : List (String × ComponentSpec))
    (executors : List (String × ExecutorSpec))
    (dag_spec : DagSpec) (io_store : IOStore) (task_name : String) :
    Except (String × Trace)
      (List (String × PyValue) × Status × Option String × Trace) := do
  let task_spec := (dictGet dag_spec.tasks task_name).getD default
  match validate_task_spec_not_loop_or_condition task_spec with
  | .error e => .error (e, [])
  | .ok _ =>
  let component_name := task_spec.component_ref_name
  match dictGet components component_name with
  | Option.none => .error ("KeyError: " ++ component_name, [])
  | some component_spec =>
  match component_spec.implementation with
  | .dag _ =>
      match make_task_arguments task_spec.inputs io_store with
      | .error e => .error (e, [])
      | .ok dag_arguments =>
          -- fresh sub-DAG store: `sub_dag_io_store = io.IOStore()`
          match recur component_spec dag_arguments with
          | .error (e, sub_trace) => .error (e, sub_trace)
          | .ok (outputs, task_status, fail_task_name, sub_trace) =>
              .ok (outputs, task_status, fail_task_name, sub_trace)
  | .executor_label executor_key =>
      match dictGet executors executor_key with
      | Option.none => .error ("KeyError: " ++ executor_key, [])
      | some executor_spec =>
      match make_task_arguments task_spec.inputs io_store with
      | .error e => .error (e, [])
      | .ok task_arguments =>
          match executor_spec with
          | .importer =>
              let (outputs, task_status) :=
                collabs.run_importer component_name task_arguments
              .ok (outputs, task_status,
                if task_status = Status.FAILURE then some task_name
                else Option.none,
                [(task_name, task_status)])
          | .container =>
              let (outputs, task_status) :=
                collabs.run_single_task_implementation component_name
                  task_arguments
              .ok (outputs, task_status,
                if task_status = Status.FAILURE then some task_name
                else Option.none,
                [(task_name, task_status)])
          | .other =>
              .error ("Got unknown spec in ExecutorSpec. Only " ++
                "dsl.component, dsl.container_component, and dsl.importer " ++
                "are supported in local pipeline execution.", [])
  | .unset => .error ("Got unknown component implementation", [])

/-- The `while sorted_tasks` loop of `run_dag`, over the execution order
(the reversed stack): exits with `({}, FAILURE, fail_task_name)` on the
first failing task, records outputs into the store on success, and
projects the declared DAG outputs once the list is exhausted. -/
def run_tasks
    (recur : ComponentSpec → List (String × PyValue) →
      Except (String × Trace) RunResult)
    (collabs : Collaborators)
    (components : List (String × ComponentSpec))
    (executors : List (String × ExecutorSpec))
    (dag_spec : DagSpec) :
    IOStore → Trace → List String → Except (String × Trace) RunResult :=
  fun io_store trace tasks =>
  match tasks with
  | [] =>
      match get_dag_outputs dag_spec.outputs io_store with
      | .error e => .error (e, trace)
      | .ok dag_outputs => .ok (dag_outputs, Status.SUCCESS, Option.none, trace)
  | task_name :: rest =>
      match execute_task recur collabs components executors dag_spec io_store
          task_name with
      | .error (e, events) => .error (e, trace ++ events)
      | .ok (outputs, task_status, fail_task_name, events) =>
          match task_status with
          | Status.FAILURE =>
              .ok ([], Status.FAILURE, fail_task_name, trace ++ events)
          | Status.SUCCESS =>
              match put_task_outputs io_store task_name outputs with
              | .error e => .error (e, trace ++ events)
              | .ok io_store' =>
                  run_tasks recur collabs components executors dag_spec
                    io_store' (trace ++ events) rest

/-- `dag_orchestrator.run_dag`: binds defaults and seeds the store's
parent inputs, sequences the tasks topologically, and executes them in
order (the stack is popped from its end, i.e. the reversed list is walked
front to back), recursing with a fresh store for nested graphs.  The fuel
bounds the recursion depth, as Python's interpreter stack does. -/
def run_dag (fuel : ℕ) (collabs : Collaborators)
    (components : List (String × ComponentSpec))
    (executors : List (String × ExecutorSpec))
    (dag_component_spec : ComponentSpec)
    (dag_arguments : List (String × PyValue)) (io_store : IOStore) :
    Except (String × Trace) RunResult :=
  match fuel with
  | 0 => .error ("RecursionError: maximum recursion depth exceeded", [])
  | Nat.succ fuel =>
      match bind_defaults_to_dag_arguments dag_arguments
          dag_component_spec.input_definitions with
      | .error e => .error (e, [])
      | .ok dag_arguments_with_defaults =>
          let io_store := dag_arguments_with_defaults.foldl
            (fun s kv => s.put_parent_input kv.1 kv.2) io_store
          let dag_spec := dag_component_spec.dag
          match topological_sort_tasks dag_spec.tasks with
          | .error e => .error (e, [])
          | .ok sorted_tasks =>
              run_tasks
                (fun component_spec args =>
                  run_dag fuel collabs components executors component_spec
                    args IOStore.empty)
                collabs components executors dag_spec io_store []
                sorted_tasks.reverse

/-! ## Representable values for the codec round-trip. -/

mutual

/-- A wire value is well-formed when every nested `Value` carries a
recognized tag (no `unset` anywhere). -/
def wellFormedPb : PbValue → Bool
  | .nullValue => true
  | .numberValue _ => true
  | .stringValue _ => true
  | .boolValue _ => true
  | .structValue fields => wellFormedPbFields fields
  | .listValue values => wellFormedPbList values
  | .unset => false

/-- `wellFormedPb` over a list of wire values. -/
def wellFormedPbList : List PbValue → Bool
  | [] => true
  | w :: rest => wellFormedPb w && wellFormedPbList rest

/-- `wellFormedPb` over a struct's fields. -/
def wellFormedPbFields : List (String × PbValue) → Bool
  | [] => true
  | kv :: rest => wellFormedPb kv.2 && wellFormedPbFields rest

end

mutual

/-- A native value is of a kind the wire format represents directly:
null, number (a float — the wire has a single numeric tag), string,
boolean, list or structure; no ints (which only arise from the declared-
integer re-typing pass) and no artifacts. -/
def floatNative : PyValue → Bool
  | .none => true
  | .float _ => true
  | .int _ => false
  | .str _ => true
  | .bool _ => true
  | .list xs => floatNativeList xs
  | .dict xs => floatNativeFields xs
  | .artifact _ => false
  | .artifactList _ => false

/-- `floatNative` over a Python list. -/
def floatNativeList : List PyValue → Bool
  | [] => true
  | v :: rest => floatNative v && floatNativeList rest

/-- `floatNative` over a Python dict's entries. -/
def floatNativeFields : List (String × PyValue) → Bool
  | [] => true
  | kv :: rest => floatNative kv.2 && floatNativeFields rest

end
/-! ## Dictionary lemmas. -/

theorem except_ok_bind {ε α β : Type} (a : α) (f : α → Except ε β) :
    (Except.ok a >>= f) = f a := rfl

theorem except_map_ok {ε α β : Type} (f : α → β) (a : α) :
    Except.map f (Except.ok a : Except ε α) = Except.ok (f a) := rfl

theorem except_error_bind {ε α β : Type} (e : ε) (f : α → Except ε β) :
    ((Except.error e : Except ε α) >>= f) = Except.error e := rfl

theorem dictGet_nil {α : Type} (k : String) :
    dictGet ([] : List (String × α)) k = Option.none := rfl

theorem dictGet_cons {α : Type} (kv : String × α) (rest : List (String × α))
    (k : String) :
    dictGet (kv :: rest) k = if kv.1 = k then some kv.2 else dictGet rest k := by
  by_cases h : kv.1 = k
  · simp [dictGet, List.find?_cons_of_pos, h]
  · simp [dictGet, List.find?_cons_of_neg, h]

theorem dictGet_dictInsert_self {α : Type} (d : List (String × α)) (k : String)
    (v : α) : dictGet (dictInsert d k v) k = some v := by
  induction d with
  | nil => simp [dictInsert, dictGet_cons]
  | cons kv rest ih =>
      by_cases h : kv.1 = k
      · simp [dictInsert, h, dictGet_cons]
      · simp [dictInsert, h, dictGet_cons, ih]

theorem dictGet_dictInsert_ne {α : Type} (d : List (String × α))
    (k k' : String) (v : α) (h : k ≠ k') :
    dictGet (dictInsert d k' v) k = dictGet d k := by
  have h' : ¬ k' = k := Ne.symm h
  induction d with
  | nil => simp [dictInsert, dictGet_cons, dictGet_nil, h']
  | cons kv rest ih =>
      by_cases hk : kv.1 = k'
      · have hkk : ¬ kv.1 = k := by rw [hk]; exact h'
        simp [dictInsert, hk, dictGet_cons, h', hkk]
      · simp [dictInsert, hk, dictGet_cons, ih]

theorem dictGet_eq_none_of_not_mem {α : Type} (d : List (String × α))
    (k : String) (h : k ∉ d.map Prod.fst) : dictGet d k = Option.none := by
  induction d with
  | nil => rfl
  | cons kv rest ih =>
      simp only [List.map_cons, List.mem_cons] at h
      push_neg at h
      simp [dictGet_cons, Ne.symm h.1, ih (by simpa using h.2)]

theorem dictGet_dictUnion_of_not_mem_right {α : Type}
    (a b : List (String × α)) (k : String) (h : k ∉ b.map Prod.fst) :
    dictGet (dictUnion a b) k = dictGet a k := by
  induction b generalizing a with
  | nil => rfl
  | cons kv rest ih =>
      simp only [List.map_cons, List.mem_cons] at h
      push_neg at h
      have step : dictGet (dictInsert a kv.1 kv.2) k = dictGet a k :=
        dictGet_dictInsert_ne a k kv.1 kv.2 h.1
      have tail := ih (dictInsert a kv.1 kv.2) (by simpa using h.2)
      simpa [dictUnion, List.foldl_cons, step] using tail

theorem mem_map_fst_of_dictGet_some {α : Type} {d : List (String × α)}
    {k : String} {v : α} (h : dictGet d k = some v) : k ∈ d.map Prod.fst := by
  induction d with
  | nil => simp [dictGet_nil] at h
  | cons kv rest ih =>
      rw [dictGet_cons] at h
      by_cases hk : kv.1 = k
      · simp [hk]
      · rw [if_neg hk] at h
        simp only [List.map_cons, List.mem_cons]
        exact Or.inr (ih h)

mutual

/-- Decode-then-encode is the identity on well-formed wire values, and
lands in the float-native fragment. -/
theorem pb2_roundtrip : ∀ w, wellFormedPb w = true →
    ∃ v, pb2_value_to_python w = Except.ok v ∧ floatNative v = true ∧
      to_protobuf_value v = Except.ok w
  | .nullValue, _ => ⟨.none, rfl, rfl, rfl⟩
  | .numberValue q, _ => ⟨.float q, rfl, rfl, rfl⟩
  | .stringValue s, _ => ⟨.str s, rfl, rfl, rfl⟩
  | .boolValue b, _ => ⟨.bool b, rfl, rfl, rfl⟩
  | .structValue fields, h => by
      obtain ⟨vs, h1, h2, h3⟩ := pb2_fields_roundtrip fields
        (by simpa [wellFormedPb] using h)
      exact ⟨.dict vs, by simp [pb2_value_to_python, h1, except_map_ok],
        by simpa [floatNative] using h2, by simp [to_protobuf_value, h3, except_map_ok]⟩
  | .listValue values, h => by
      obtain ⟨vs, h1, h2, h3⟩ := pb2_list_roundtrip values
        (by simpa [wellFormedPb] using h)
      exact ⟨.list vs, by simp [pb2_value_to_python, h1, except_map_ok],
        by simpa [floatNative] using h2, by simp [to_protobuf_value, h3, except_map_ok]⟩
  | .unset, h => by simp [wellFormedPb] at h

/-- `pb2_roundtrip`, elementwise over a list of wire values. -/
theorem pb2_list_roundtrip : ∀ ws, wellFormedPbList ws = true →
    ∃ vs, pb2_value_list_to_python ws = Except.ok vs ∧
      floatNativeList vs = true ∧ to_protobuf_value_list vs = Except.ok ws
  | [], _ => ⟨[], rfl, rfl, rfl⟩
  | w :: rest, h => by
      rw [wellFormedPbList, Bool.and_eq_true] at h
      obtain ⟨v, h1, h2, h3⟩ := pb2_roundtrip w h.1
      obtain ⟨vs, g1, g2, g3⟩ := pb2_list_roundtrip rest h.2
      exact ⟨v :: vs, by simp [pb2_value_list_to_python, h1, g1, except_ok_bind],
        by simp [floatNativeList, h2, g2],
        by simp [to_protobuf_value_list, h3, g3, except_ok_bind]⟩

/-- `pb2_roundtrip`, elementwise over a struct's fields. -/
theorem pb2_fields_roundtrip : ∀ ws, wellFormedPbFields ws = true →
    ∃ vs, pb2_struct_fields_to_python ws = Except.ok vs ∧
      floatNativeFields vs = true ∧ to_protobuf_value_fields vs = Except.ok ws
  | [], _ => ⟨[], rfl, rfl, rfl⟩
  | kv :: rest, h => by
      rw [wellFormedPbFields, Bool.and_eq_true] at h
      obtain ⟨v, h1, h2, h3⟩ := pb2_roundtrip kv.2 h.1
      obtain ⟨vs, g1, g2, g3⟩ := pb2_fields_roundtrip rest h.2
      exact ⟨(kv.1, v) :: vs, by simp [pb2_struct_fields_to_python, h1, g1, except_ok_bind],
        by simp [floatNativeFields, h2, g2],
        by simp [to_protobuf_value_fields, h3, g3, except_ok_bind]⟩

end

mutual

/-- Encode-then-decode is the identity on float-native values, and lands
in the well-formed wire fragment. -/
theorem py_roundtrip : ∀ v, floatNative v = true →
    ∃ w, to_protobuf_value v = Except.ok w ∧ wellFormedPb w = true ∧
      pb2_value_to_python w = Except.ok v
  | .none, _ => ⟨.nullValue, rfl, rfl, rfl⟩
  | .float q, _ => ⟨.numberValue q, rfl, rfl, rfl⟩
  | .str s, _ => ⟨.stringValue s, rfl, rfl, rfl⟩
  | .bool b, _ => ⟨.boolValue b, rfl, rfl, rfl⟩
  | .int _, h => by simp [floatNative] at h
  | .artifact _, h => by simp [floatNative] at h
  | .artifactList _, h => by simp [floatNative] at h
  | .list xs, h => by
      obtain ⟨ws, h1, h2, h3⟩ := py_list_roundtrip xs
        (by simpa [floatNative] using h)
      exact ⟨.listValue ws, by simp [to_protobuf_value, h1, except_map_ok],
        by simpa [wellFormedPb] using h2, by simp [pb2_value_to_python, h3, except_map_ok]⟩
  | .dict xs, h => by
      obtain ⟨ws, h1, h2, h3⟩ := py_fields_roundtrip xs
        (by simpa [floatNative] using h)
      exact ⟨.structValue ws, by simp [to_protobuf_value, h1, except_map_ok],
        by simpa [wellFormedPb] using h2, by simp [pb2_value_to_python, h3, except_map_ok]⟩

/-- `py_roundtrip`, elementwise over a Python list. -/
theorem py_list_roundtrip : ∀ vs, floatNativeList vs = true →
    ∃ ws, to_protobuf_value_list vs = Except.ok ws ∧
      wellFormedPbList ws = true ∧ pb2_value_list_to_python ws = Except.ok vs
  | [], _ => ⟨[], rfl, rfl, rfl⟩
  | v :: rest, h => by
      rw [floatNativeList, Bool.and_eq_true] at h
      obtain ⟨w, h1, h2, h3⟩ := py_roundtrip v h.1
      obtain ⟨ws, g1, g2, g3⟩ := py_list_roundtrip rest h.2
      exact ⟨w :: ws, by simp [to_protobuf_value_list, h1, g1, except_ok_bind],
        by simp [wellFormedPbList, h2, g2],
        by simp [pb2_value_list_to_python, h3, g3, except_ok_bind]⟩

/-- `py_roundtrip`, elementwise over a Python dict's entries. -/
theorem py_fields_roundtrip : ∀ vs, floatNativeFields vs = true →
    ∃ ws, to_protobuf_value_fields vs = Except.ok ws ∧
      wellFormedPbFields ws = true ∧
      pb2_struct_fields_to_python ws = Except.ok vs
  | [], _ => ⟨[], rfl, rfl, rfl⟩
  | kv :: rest, h => by
      rw [floatNativeFields, Bool.and_eq_true] at h
      obtain ⟨w, h1, h2, h3⟩ := py_roundtrip kv.2 h.1
      obtain ⟨ws, g1, g2, g3⟩ := py_fields_roundtrip rest h.2
      exact ⟨(kv.1, w) :: ws, by simp [to_protobuf_value_fields, h1, g1, except_ok_bind],
        by simp [wellFormedPbFields, h2, g2],
        by simp [pb2_struct_fields_to_python, h3, g3, except_ok_bind]⟩

end

/-- C8: for every representable value of kind null, number, string,
boolean, list, or structure, the structured-value codec's decode followed
by encode, and encode followed by decode, return the original value.  On
the wire side the representable values are those whose every tag is
recognized; on the native side those built from the six kinds (numbers
being floats: the wire format's single numeric tag makes every decoded
number a float, and the codec alone never produces ints). -/
theorem codec_roundtrip_identity :
    (∀ w, wellFormedPb w = true →
      ∃ v, pb2_value_to_python w = Except.ok v ∧
        to_protobuf_value v = Except.ok w) ∧
    (∀ v, floatNative v = true →
      ∃ w, to_protobuf_value v = Except.ok w ∧
        pb2_value_to_python w = Except.ok v) :=
  ⟨fun w h => (pb2_roundtrip w h).elim
      (fun v hv => ⟨v, hv.1, hv.2.2⟩),
   fun v h => (py_roundtrip v h).elim
      (fun w hw => ⟨w, hw.1, hw.2.2⟩)⟩

/-- C8 witness: the round trip evaluated on a concrete structure value
holding a null, a number, a string, a boolean and a nested list. -/
theorem codec_roundtrip_identity_witness :
    (∃ v, pb2_value_to_python
        (.structValue [("a", .nullValue), ("b", .numberValue 3),
          ("c", .stringValue "s"), ("d", .boolValue true),
          ("e", .listValue [.numberValue 1, .boolValue false])]) =
          Except.ok v ∧
      to_protobuf_value v = Except.ok
        (.structValue [("a", .nullValue), ("b", .numberValue 3),
          ("c", .stringValue "s"), ("d", .boolValue true),
          ("e", .listValue [.numberValue 1, .boolValue false])])) ∧
    (∃ w, to_protobuf_value
        (.dict [("x", .float (3 / 2)), ("y", .list [.str "t", .none])]) =
          Except.ok w ∧
      pb2_value_to_python w = Except.ok
        (.dict [("x", .float (3 / 2)), ("y", .list [.str "t", .none])])) :=
  ⟨codec_roundtrip_identity.1
      (.structValue [("a", .nullValue), ("b", .numberValue 3),
        ("c", .stringValue "s"), ("d", .boolValue true),
        ("e", .listValue [.numberValue 1, .boolValue false])]) rfl,
   codec_roundtrip_identity.2
      (.dict [("x", .float (3 / 2)), ("y", .list [.str "t", .none])]) rfl⟩

/-- C6 (amended): for a declared single-artifact (non-list) output, the
normalizer fails with an error when the raw message carries zero
artifacts, and returns the FIRST artifact — without error — when it
carries one or more. -/
theorem single_artifact_cardinality (artifact_list : List RuntimeArtifact) :
    (artifact_list = [] →
      artifact_list_to_dsl_artifact artifact_list false =
        Except.error "IndexError: list index out of range") ∧
    (∀ a rest, artifact_list = a :: rest →
      artifact_list_to_dsl_artifact artifact_list false =
        Except.ok (.artifact (runtime_artifact_to_dsl_artifact a))) := by
  constructor
  · rintro rfl; rfl
  · rintro a rest rfl; rfl

/-- C6 witness: the zero-artifact case errors and the one-artifact case
returns the artifact. -/
theorem single_artifact_cardinality_witness :
    artifact_list_to_dsl_artifact [] false =
      Except.error "IndexError: list index out of range" ∧
    artifact_list_to_dsl_artifact [⟨"T", "u", "m"⟩] false =
      Except.ok (.artifact ⟨"T", "u", "m"⟩) :=
  ⟨(single_artifact_cardinality []).1 rfl,
   (single_artifact_cardinality [⟨"T", "u", "m"⟩]).2 ⟨"T", "u", "m"⟩ [] rfl⟩

/-- C6 counterexample: with two artifacts in the raw message for a
declared single-artifact output, the normalizer does NOT fail — it
silently returns the first artifact. -/
theorem single_artifact_two_artifacts_no_error :
    artifact_list_to_dsl_artifact [⟨"T", "u1", "m1"⟩, ⟨"T", "u2", "m2"⟩]
      false = Except.ok (.artifact ⟨"T", "u1", "m1"⟩) := rfl

/-- C10: decoding a number-tagged wire value always yields a float; the
argument resolver delivers an integer-valued literal constant, and a
float-valued parent input, to a task as that float — no integer cast
happens outside executor-output normalization. -/
theorem number_decode_yields_float (q : ℚ) (name pname : String)
    (io_store : IOStore) :
    pb2_value_to_python (.numberValue q) = Except.ok (.float q) ∧
    make_task_arguments
      ⟨[(name, .runtimeValueConstant (.numberValue q))], []⟩ io_store =
      Except.ok [(name, .float q)] ∧
    (dictGet io_store.parent_inputs pname = some (.float q) →
      make_task_arguments ⟨[(name, .componentInputParameter pname)], []⟩
        io_store = Except.ok [(name, .float q)]) := by
  refine ⟨rfl, rfl, fun h => ?_⟩
  simp [make_task_arguments, make_task_parameter_arguments,
    make_task_artifact_arguments, IOStore.get_parent_input, h,
    except_ok_bind]

/-- C10 witness: the integer-valued wire constant `3` arrives at the task
as the float `3.0`, as does the parent input bound to it. -/
theorem number_decode_yields_float_witness :
    pb2_value_to_python (.numberValue 3) = Except.ok (.float 3) ∧
    make_task_arguments
      ⟨[("x", .runtimeValueConstant (.numberValue 3))], []⟩ IOStore.empty =
      Except.ok [("x", .float 3)] ∧
    make_task_arguments ⟨[("x", .componentInputParameter "p")], []⟩
      ⟨[("p", .float 3)], []⟩ = Except.ok [("x", .float 3)] :=
  ⟨(number_decode_yields_float 3 "x" "p" IOStore.empty).1,
   (number_decode_yields_float 3 "x" "p" IOStore.empty).2.1,
   (number_decode_yields_float 3 "x" "p" ⟨[("p", .float 3)], []⟩).2.2 rfl⟩

/-! ## Lemmas about the output-file merge loop. -/

theorem merge_go_not_mem (files : FileSystem)
    (jsonLoads : String → Except String PyValue) (cs : ComponentSpec)
    (ps : List (String × OutputParameter)) (values out : List (String × PbValue))
    (k : String) (hk : k ∉ ps.map Prod.fst)
    (h : merge_output_file_parameters_go files jsonLoads cs ps values =
      Except.ok out) :
    dictGet out k = dictGet values k := by
  induction ps generalizing values with
  | nil =>
      simp only [merge_output_file_parameters_go] at h
      cases h
      rfl
  | cons p rest ih =>
      obtain ⟨pk, pv⟩ := p
      simp only [List.map_cons, List.mem_cons] at hk
      push_neg at hk
      simp only [merge_output_file_parameters_go] at h
      by_cases hex : (dictGet files pv.output_file).isSome
      · rw [if_pos hex] at h
        cases hre : special_dsl_outputpath_read files jsonLoads pv.output_file
            (((dictGet cs.output_definitions.parameters pk).getD
              default).parameter_type == ParameterTypeEnum.STRING) with
        | error e =>
            rw [hre] at h
            simp [except_error_bind] at h
        | ok v =>
            rw [hre] at h
            simp only [except_ok_bind] at h
            cases hpb : to_protobuf_value v with
            | error e =>
                rw [hpb] at h
                simp [except_error_bind] at h
            | ok pb =>
                rw [hpb] at h
                simp only [except_ok_bind] at h
                have := ih _ (by simpa using hk.2) h
                rwa [dictGet_dictInsert_ne values k pk pb hk.1] at this
      · rw [if_neg hex] at h
        exact ih _ (by simpa using hk.2) h

theorem merge_go_key_file (files : FileSystem)
    (jsonLoads : String → Except String PyValue) (cs : ComponentSpec)
    (ps : List (String × OutputParameter)) (values out : List (String × PbValue))
    (k : String) (pf : OutputParameter) (content : String)
    (hnd : (ps.map Prod.fst).Nodup)
    (hk : dictGet ps k = some pf)
    (hf : dictGet files pf.output_file = some content)
    (h : merge_output_file_parameters_go files jsonLoads cs ps values =
      Except.ok out) :
    ∃ v pb,
      special_dsl_outputpath_read files jsonLoads pf.output_file
        (((dictGet cs.output_definitions.parameters k).getD
          default).parameter_type == ParameterTypeEnum.STRING) =
        Except.ok v ∧
      to_protobuf_value v = Except.ok pb ∧
      dictGet out k = some pb := by
  induction ps generalizing values with
  | nil => simp [dictGet_nil] at hk
  | cons p rest ih =>
      obtain ⟨pk, pv⟩ := p
      rw [dictGet_cons] at hk
      rw [List.map_cons, List.nodup_cons] at hnd
      simp only [merge_output_file_parameters_go] at h
      by_cases hpk : pk = k
      · rw [if_pos hpk] at hk
        injection hk with hpf
        subst hpf
        subst hpk
        have hex : (dictGet files pv.output_file).isSome := by
          rw [hf]; rfl
        rw [if_pos hex] at h
        cases hre : special_dsl_outputpath_read files jsonLoads pv.output_file
            (((dictGet cs.output_definitions.parameters pk).getD
              default).parameter_type == ParameterTypeEnum.STRING) with
        | error e =>
            rw [hre] at h
            simp [except_error_bind] at h
        | ok v =>
            rw [hre] at h
            simp only [except_ok_bind] at h
            cases hpb : to_protobuf_value v with
            | error e =>
                rw [hpb] at h
                simp [except_error_bind] at h
            | ok pb =>
                rw [hpb] at h
                simp only [except_ok_bind] at h
                refine ⟨v, pb, rfl, hpb, ?_⟩
                have := merge_go_not_mem files jsonLoads cs rest _ out pk
                  hnd.1 h
                rw [this, dictGet_dictInsert_self]
      · rw [if_neg hpk] at hk
        by_cases hex : (dictGet files pv.output_file).isSome
        · rw [if_pos hex] at h
          cases hre : special_dsl_outputpath_read files jsonLoads
              pv.output_file
              (((dictGet cs.output_definitions.parameters pk).getD
                default).parameter_type == ParameterTypeEnum.STRING) with
          | error e =>
              rw [hre] at h
              simp [except_error_bind] at h
          | ok v =>
              rw [hre] at h
              simp only [except_ok_bind] at h
              cases hpb : to_protobuf_value v with
              | error e =>
                  rw [hpb] at h
                  simp [except_error_bind] at h
              | ok pb =>
                  rw [hpb] at h
                  simp only [except_ok_bind] at h
                  exact ih _ hnd.2 hk h
        · rw [if_neg hex] at h
          exact ih _ hnd.2 hk h

theorem merge_go_key_nofile (files : FileSystem)
    (jsonLoads : String → Except String PyValue) (cs : ComponentSpec)
    (ps : List (String × OutputParameter)) (values out : List (String × PbValue))
    (k : String) (pf : OutputParameter)
    (hnd : (ps.map Prod.fst).Nodup)
    (hk : dictGet ps k = some pf)
    (hf : dictGet files pf.output_file = Option.none)
    (h : merge_output_file_parameters_go files jsonLoads cs ps values =
      Except.ok out) :
    dictGet out k = dictGet values k := by
  induction ps generalizing values with
  | nil => simp [dictGet_nil] at hk
  | cons p rest ih =>
      obtain ⟨pk, pv⟩ := p
      rw [dictGet_cons] at hk
      rw [List.map_cons, List.nodup_cons] at hnd
      simp only [merge_output_file_parameters_go] at h
      by_cases hpk : pk = k
      · rw [if_pos hpk] at hk
        injection hk with hpf
        subst hpf
        subst hpk
        have hex : ¬ (dictGet files pv.output_file).isSome := by
          rw [hf]; simp
        rw [if_neg hex] at h
        exact merge_go_not_mem files jsonLoads cs rest values out pk hnd.1 h
      · rw [if_neg hpk] at hk
        by_cases hex : (dictGet files pv.output_file).isSome
        · rw [if_pos hex] at h
          cases hre : special_dsl_outputpath_read files jsonLoads
              pv.output_file
              (((dictGet cs.output_definitions.parameters pk).getD
                default).parameter_type == ParameterTypeEnum.STRING) with
          | error e =>
              rw [hre] at h
              simp [except_error_bind] at h
          | ok v =>
              rw [hre] at h
              simp only [except_ok_bind] at h
              cases hpb : to_protobuf_value v with
              | error e =>
                  rw [hpb] at h
                  simp [except_error_bind] at h
              | ok pb =>
                  rw [hpb] at h
                  simp only [except_ok_bind] at h
                  have := ih _ hnd.2 hk h
                  rwa [dictGet_dictInsert_ne values k pk pb
                    (fun e => hpk e.symm)] at this
        · rw [if_neg hex] at h
          exact ih _ hnd.2 hk h

theorem merge_ok_values (files : FileSystem)
    (jsonLoads : String → Except String PyValue) (ei : ExecutorInput)
    (eo eo' : ExecutorOutput) (cs : ComponentSpec)
    (h : merge_dsl_output_file_parameters_to_executor_output files jsonLoads
      ei eo cs = Except.ok eo') :
    merge_output_file_parameters_go files jsonLoads cs
      ei.outputs.parameters eo.parameter_values =
      Except.ok eo'.parameter_values := by
  simp only [merge_dsl_output_file_parameters_to_executor_output] at h
  cases hgo : merge_output_file_parameters_go files jsonLoads cs
      ei.outputs.parameters eo.parameter_values with
  | error e => simp [hgo, except_error_bind] at h
  | ok values =>
      rw [hgo] at h
      simp only [except_ok_bind] at h
      cases h
      rfl

theorem not_mem_of_dictGet_none {α : Type} {d : List (String × α)}
    {k : String} (h : dictGet d k = Option.none) : k ∉ d.map Prod.fst := by
  intro hmem
  induction d with
  | nil => simp at hmem
  | cons kv rest ih =>
      rw [dictGet_cons] at h
      by_cases hk : kv.1 = k
      · rw [if_pos hk] at h; cases h
      · rw [if_neg hk] at h
        rcases List.mem_cons.mp hmem with h1 | h1
        · exact hk h1.symm
        · exact ih h h1

/-- C7: for every output parameter whose designated output file exists,
the merged message's entry for that parameter is the re-encoded file
content: the raw file text used verbatim when the declared type is
string, and the `json.loads`-decoded value otherwise. -/
theorem output_file_merge_decodes (files : FileSystem)
    (jsonLoads : String → Except String PyValue) (ei : ExecutorInput)
    (eo : ExecutorOutput) (cs : ComponentSpec) (key : String)
    (pf : OutputParameter) (content : String)
    (hnd : (ei.outputs.parameters.map Prod.fst).Nodup)
    (hk : dictGet ei.outputs.parameters key = some pf)
    (hf : dictGet files pf.output_file = some content) :
    (((dictGet cs.output_definitions.parameters key).getD
        default).parameter_type = ParameterTypeEnum.STRING →
      ∀ eo', merge_dsl_output_file_parameters_to_executor_output files
          jsonLoads ei eo cs = Except.ok eo' →
        dictGet eo'.parameter_values key = some (.stringValue content)) ∧
    (((dictGet cs.output_definitions.parameters key).getD
        default).parameter_type ≠ ParameterTypeEnum.STRING →
      ∀ v pb eo', jsonLoads content = Except.ok v →
        to_protobuf_value v = Except.ok pb →
        merge_dsl_output_file_parameters_to_executor_output files jsonLoads
          ei eo cs = Except.ok eo' →
        dictGet eo'.parameter_values key = some pb) := by
  constructor
  · intro hstr eo' hm
    obtain ⟨v, pb, hre, hpb, hget⟩ := merge_go_key_file files jsonLoads cs
      ei.outputs.parameters eo.parameter_values eo'.parameter_values key pf
      content hnd hk hf (merge_ok_values files jsonLoads ei eo eo' cs hm)
    rw [show (((dictGet cs.output_definitions.parameters key).getD
        default).parameter_type == ParameterTypeEnum.STRING) = true
      by simp [hstr]] at hre
    simp only [special_dsl_outputpath_read, hf, if_pos] at hre
    cases hre
    cases hpb
    exact hget
  · intro hstr v pb eo' hjl hpb hm
    obtain ⟨v0, pb0, hre, hpb0, hget⟩ := merge_go_key_file files jsonLoads cs
      ei.outputs.parameters eo.parameter_values eo'.parameter_values key pf
      content hnd hk hf (merge_ok_values files jsonLoads ei eo eo' cs hm)
    rw [show (((dictGet cs.output_definitions.parameters key).getD
        default).parameter_type == ParameterTypeEnum.STRING) = false
      by simpa using hstr] at hre
    simp only [special_dsl_outputpath_read, hf, if_neg] at hre
    rw [hjl] at hre
    cases hre
    rw [hpb] at hpb0
    cases hpb0
    exact hget

/-- C7 witness: a string-typed output file is merged verbatim and a
double-typed output file is merged through JSON decoding. -/
theorem output_file_merge_decodes_witness :
    dictGet (⟨[("o", .stringValue "abc")], []⟩ :
        ExecutorOutput).parameter_values "o" = some (.stringValue "abc") ∧
    dictGet (⟨[("o", .numberValue 5)], []⟩ :
        ExecutorOutput).parameter_values "o" = some (.numberValue 5) :=
  ⟨(output_file_merge_decodes [("f", "abc")] (fun _ => Except.ok .none)
      ⟨⟨[("o", ⟨"f"⟩)], []⟩⟩ ⟨[], []⟩
      ⟨⟨[], []⟩, ⟨[("o", ⟨.STRING⟩)], []⟩, .unset⟩ "o" ⟨"f"⟩ "abc"
      (by simp) rfl rfl).1 rfl ⟨[("o", .stringValue "abc")], []⟩ rfl,
   (output_file_merge_decodes [("f", "5")] (fun _ => Except.ok (.float 5))
      ⟨⟨[("o", ⟨"f"⟩)], []⟩⟩ ⟨[], []⟩
      ⟨⟨[], []⟩, ⟨[("o", ⟨.NUMBER_DOUBLE⟩)], []⟩, .unset⟩ "o" ⟨"f"⟩ "5"
      (by simp) rfl rfl).2 (by decide) (.float 5) (.numberValue 5)
      ⟨[("o", .numberValue 5)], []⟩ rfl rfl rfl⟩

/-- C9: when a parameter has both an inline value in the raw message and
an existing designated output file, the file-derived value replaces the
inline one; a parameter whose designated file does not exist — or which
has no designated file at all — keeps its inline message value. -/
theorem output_file_overrides_inline (files : FileSystem)
    (jsonLoads : String → Except String PyValue) (ei : ExecutorInput)
    (eo : ExecutorOutput) (cs : ComponentSpec) (key : String)
    (hnd : (ei.outputs.parameters.map Prod.fst).Nodup) :
    (∀ pf, dictGet ei.outputs.parameters key = some pf →
      dictGet files pf.output_file = Option.none →
      ∀ eo', merge_dsl_output_file_parameters_to_executor_output files
          jsonLoads ei eo cs = Except.ok eo' →
        dictGet eo'.parameter_values key = dictGet eo.parameter_values key) ∧
    (dictGet ei.outputs.parameters key = Option.none →
      ∀ eo', merge_dsl_output_file_parameters_to_executor_output files
          jsonLoads ei eo cs = Except.ok eo' →
        dictGet eo'.parameter_values key = dictGet eo.parameter_values key) ∧
    (∀ pf content, dictGet ei.outputs.parameters key = some pf →
      dictGet files pf.output_file = some content →
      ∀ eo', merge_dsl_output_file_parameters_to_executor_output files
          jsonLoads ei eo cs = Except.ok eo' →
      ∃ v pb,
        special_dsl_outputpath_read files jsonLoads pf.output_file
          (((dictGet cs.output_definitions.parameters key).getD
            default).parameter_type == ParameterTypeEnum.STRING) =
          Except.ok v ∧
        to_protobuf_value v = Except.ok pb ∧
        dictGet eo'.parameter_values key = some pb) := by
  refine ⟨fun pf hk hf eo' hm => ?_, fun hk eo' hm => ?_,
    fun pf content hk hf eo' hm => ?_⟩
  · exact merge_go_key_nofile files jsonLoads cs ei.outputs.parameters
      eo.parameter_values eo'.parameter_values key pf hnd hk hf
      (merge_ok_values files jsonLoads ei eo eo' cs hm)
  · exact merge_go_not_mem files jsonLoads cs ei.outputs.parameters
      eo.parameter_values eo'.parameter_values key
      (not_mem_of_dictGet_none hk)
      (merge_ok_values files jsonLoads ei eo eo' cs hm)
  · exact merge_go_key_file files jsonLoads cs ei.outputs.parameters
      eo.parameter_values eo'.parameter_values key pf content hnd hk hf
      (merge_ok_values files jsonLoads ei eo eo' cs hm)

/-- C9 witness: with inline value `7`, an existing file carrying `5`
replaces it, while a missing file leaves the inline `7` in place. -/
theorem output_file_overrides_inline_witness :
    (∃ v pb,
      special_dsl_outputpath_read [("f", "5")]
        (fun _ => Except.ok (.float 5)) "f"
        (((dictGet
            ([("o", (⟨.NUMBER_DOUBLE⟩ : OutputParameterSpec))]) "o").getD
          default).parameter_type == ParameterTypeEnum.STRING) =
        Except.ok v ∧
      to_protobuf_value v = Except.ok pb ∧
      dictGet (⟨[("o", .numberValue 5)], []⟩ :
        ExecutorOutput).parameter_values "o" = some pb) ∧
    dictGet (⟨[("o", .numberValue 7)], []⟩ :
        ExecutorOutput).parameter_values "o" =
      dictGet (⟨[("o", .numberValue 7)], []⟩ :
        ExecutorOutput).parameter_values "o" :=
  ⟨(output_file_overrides_inline [("f", "5")] (fun _ => Except.ok (.float 5))
      ⟨⟨[("o", ⟨"f"⟩)], []⟩⟩ ⟨[("o", .numberValue 7)], []⟩
      ⟨⟨[], []⟩, ⟨[("o", ⟨.NUMBER_DOUBLE⟩)], []⟩, .unset⟩ "o"
      (by simp)).2.2 ⟨"f"⟩ "5" rfl rfl
      ⟨[("o", .numberValue 5)], []⟩ rfl,
   (output_file_overrides_inline [] (fun _ => Except.ok (.float 5))
      ⟨⟨[("o", ⟨"f"⟩)], []⟩⟩ ⟨[("o", .numberValue 7)], []⟩
      ⟨⟨[], []⟩, ⟨[("o", ⟨.NUMBER_DOUBLE⟩)], []⟩, .unset⟩ "o"
      (by simp)).1 ⟨"f"⟩ rfl rfl
      ⟨[("o", .numberValue 7)], []⟩ rfl⟩

/-! ## Lemmas about executor-output normalization (for the integer
re-typing pass). -/

theorem add_type_go_keys (ei : ExecutorInput)
    (l l' : List (String × List RuntimeArtifact))
    (h : add_type_go ei l = Except.ok l') : l'.map Prod.fst = l.map Prod.fst := by
  induction l generalizing l' with
  | nil =>
      simp only [add_type_go] at h
      cases h
      rfl
  | cons kv rest ih =>
      obtain ⟨key, al⟩ := kv
      simp only [add_type_go] at h
      cases hd : (dictGet ei.outputs.artifacts key).getD [] with
      | nil => rw [hd] at h; cases h
      | cons ia tl =>
          rw [hd] at h
          cases hrest : add_type_go ei rest with
          | error e => rw [hrest] at h; cases h
          | ok rest' =>
              rw [hrest] at h
              simp only [except_ok_bind] at h
              cases h
              simp [ih rest' hrest]

theorem add_type_ok (ei : ExecutorInput) (eo eo' : ExecutorOutput)
    (h : add_type_to_executor_output ei eo = Except.ok eo') :
    eo'.parameter_values = eo.parameter_values ∧
    eo'.artifacts.map Prod.fst = eo.artifacts.map Prod.fst := by
  simp only [add_type_to_executor_output] at h
  cases hgo : add_type_go ei eo.artifacts with
  | error e => rw [hgo] at h; cases h
  | ok arts =>
      rw [hgo] at h
      simp only [except_ok_bind] at h
      cases h
      exact ⟨rfl, add_type_go_keys ei eo.artifacts arts hgo⟩

theorem merge_ok_artifacts (files : FileSystem)
    (jsonLoads : String → Except String PyValue) (ei : ExecutorInput)
    (eo eo' : ExecutorOutput) (cs : ComponentSpec)
    (h : merge_dsl_output_file_parameters_to_executor_output files jsonLoads
      ei eo cs = Except.ok eo') : eo'.artifacts = eo.artifacts := by
  simp only [merge_dsl_output_file_parameters_to_executor_output] at h
  cases hgo : merge_output_file_parameters_go files jsonLoads cs
      ei.outputs.parameters eo.parameter_values with
  | error e => rw [hgo] at h; cases h
  | ok values =>
      rw [hgo] at h
      simp only [except_ok_bind] at h
      cases h
      rfl

theorem decode_parameter_values_get (l : List (String × PbValue))
    (l' : List (String × PyValue)) (k : String) (w : PbValue)
    (h : decode_parameter_values l = Except.ok l')
    (hk : dictGet l k = some w) :
    ∃ v, pb2_value_to_python w = Except.ok v ∧ dictGet l' k = some v := by
  induction l generalizing l' with
  | nil => simp [dictGet_nil] at hk
  | cons kv rest ih =>
      obtain ⟨pk, pw⟩ := kv
      simp only [decode_parameter_values] at h
      cases hv : pb2_value_to_python pw with
      | error e => rw [hv] at h; cases h
      | ok v =>
          rw [hv] at h
          simp only [except_ok_bind] at h
          cases hrest : decode_parameter_values rest with
          | error e => rw [hrest] at h; cases h
          | ok rest' =>
              rw [hrest] at h
              simp only [except_ok_bind] at h
              cases h
              rw [dictGet_cons] at hk
              by_cases hpk : pk = k
              · rw [if_pos hpk] at hk
                cases hk
                exact ⟨v, hv, by rw [dictGet_cons, if_pos hpk]⟩
              · rw [if_neg hpk] at hk
                obtain ⟨v0, hv0, hget⟩ := ih rest' hrest hk
                exact ⟨v0, hv0, by rw [dictGet_cons, if_neg hpk]; exact hget⟩

theorem decode_output_artifacts_keys
    (defs : List (String × OutputArtifactSpec))
    (l : List (String × List RuntimeArtifact))
    (l' : List (String × PyValue))
    (h : decode_output_artifacts defs l = Except.ok l') :
    l'.map Prod.fst = l.map Prod.fst := by
  induction l generalizing l' with
  | nil =>
      simp only [decode_output_artifacts] at h
      cases h
      rfl
  | cons kv rest ih =>
      obtain ⟨an, al⟩ := kv
      simp only [decode_output_artifacts] at h
      cases hv : artifact_list_to_dsl_artifact al
          ((dictGet defs an).getD default).is_artifact_list with
      | error e => rw [hv] at h; cases h
      | ok v =>
          rw [hv] at h
          simp only [except_ok_bind] at h
          cases hrest : decode_output_artifacts defs rest with
          | error e => rw [hrest] at h; cases h
          | ok rest' =>
              rw [hrest] at h
              simp only [except_ok_bind] at h
              cases h
              simp [ih rest' hrest]

theorem cast_go_preserves_int (d out : List (String × PyValue))
    (ks : List String) (k : String) (n : ℤ)
    (h : cast_floats_as_ints_to_floats d ks = Except.ok out)
    (hget : dictGet d k = some (.int n)) :
    dictGet out k = some (.int n) := by
  induction ks generalizing d with
  | nil =>
      simp only [cast_floats_as_ints_to_floats] at h
      cases h
      exact hget
  | cons k' rest ih =>
      simp only [cast_floats_as_ints_to_floats] at h
      cases hd : dictGet d k' with
      | none => simp only [hd] at h; cases h
      | some v =>
          simp only [hd] at h
          cases hi : pyInt v with
          | error e => rw [hi] at h; simp [except_error_bind] at h
          | ok m =>
              rw [hi] at h
              simp only [except_ok_bind] at h
              by_cases hkk : k' = k
              · subst hkk
                rw [hget] at hd
                cases hd
                simp only [pyInt] at hi
                cases hi
                exact ih _ h (by rw [dictGet_dictInsert_self])
              · exact ih _ h
                  (by rw [dictGet_dictInsert_ne d k k' (.int m)
                    (fun e => hkk e.symm)]; exact hget)

theorem cast_go_casts_float (d out : List (String × PyValue))
    (ks : List String) (k : String) (q : ℚ)
    (hk : k ∈ ks)
    (h : cast_floats_as_ints_to_floats d ks = Except.ok out)
    (hget : dictGet d k = some (.float q)) :
    dictGet out k = some (.int (pytrunc q)) := by
  induction ks generalizing d with
  | nil => cases hk
  | cons k' rest ih =>
      simp only [cast_floats_as_ints_to_floats] at h
      cases hd : dictGet d k' with
      | none => simp only [hd] at h; cases h
      | some v =>
          simp only [hd] at h
          cases hi : pyInt v with
          | error e => rw [hi] at h; simp [except_error_bind] at h
          | ok m =>
              rw [hi] at h
              simp only [except_ok_bind] at h
              by_cases hkk : k' = k
              · subst hkk
                rw [hget] at hd
                cases hd
                simp only [pyInt] at hi
                cases hi
                exact cast_go_preserves_int _ out rest k' (pytrunc q) h
                  (by rw [dictGet_dictInsert_self])
              · rcases List.mem_cons.mp hk with h1 | h1
                · exact absurd h1.symm hkk
                · exact ih _ h1 h
                    (by rw [dictGet_dictInsert_ne d k k' (.int m)
                      (fun e => hkk e.symm)]; exact hget)

/-- C2: an output parameter declared `NUMBER_INTEGER` whose wire value is
the number `q` (one the protobuf encoding may render fractionally, e.g.
`3.0`) is delivered by `get_outputs_from_executor_output` as the native
int `int(q)` — the truncation of `q` — not as a float. -/
theorem integer_outputs_are_ints (files : FileSystem)
    (jsonLoads : String → Except String PyValue) (eo : ExecutorOutput)
    (ei : ExecutorInput) (cs : ComponentSpec) (key : String) (q : ℚ)
    (out : List (String × PyValue))
    (hdecl : ∃ ps, (key, ps) ∈ cs.output_definitions.parameters ∧
      ps.parameter_type = ParameterTypeEnum.NUMBER_INTEGER)
    (hinline : dictGet eo.parameter_values key = some (.numberValue q))
    (hnofile : ∀ pf, dictGet ei.outputs.parameters key = some pf →
      dictGet files pf.output_file = Option.none)
    (hnoart : key ∉ eo.artifacts.map Prod.fst)
    (hnd : (ei.outputs.parameters.map Prod.fst).Nodup)
    (h : get_outputs_from_executor_output files jsonLoads eo ei cs =
      Except.ok out) :
    dictGet out key = some (.int (pytrunc q)) := by
  simp only [get_outputs_from_executor_output] at h
  cases h1 : add_type_to_executor_output ei eo with
  | error e => rw [h1] at h; cases h
  | ok eo1 =>
  rw [h1] at h
  simp only [except_ok_bind] at h
  obtain ⟨hp1, ha1⟩ := add_type_ok ei eo eo1 h1
  cases h2 : merge_dsl_output_file_parameters_to_executor_output files
      jsonLoads ei eo1 cs with
  | error e => rw [h2] at h; cases h
  | ok eo2 =>
  rw [h2] at h
  simp only [except_ok_bind] at h
  have hp2 : dictGet eo2.parameter_values key = some (.numberValue q) := by
    cases hie : dictGet ei.outputs.parameters key with
    | none =>
        rw [merge_go_not_mem files jsonLoads cs ei.outputs.parameters
          eo1.parameter_values eo2.parameter_values key
          (not_mem_of_dictGet_none hie)
          (merge_ok_values files jsonLoads ei eo1 eo2 cs h2), hp1]
        exact hinline
    | some pf =>
        rw [merge_go_key_nofile files jsonLoads cs ei.outputs.parameters
          eo1.parameter_values eo2.parameter_values key pf hnd hie
          (hnofile pf hie)
          (merge_ok_values files jsonLoads ei eo1 eo2 cs h2), hp1]
        exact hinline
  have ha2 : eo2.artifacts.map Prod.fst = eo.artifacts.map Prod.fst := by
    rw [merge_ok_artifacts files jsonLoads ei eo1 eo2 cs h2, ha1]
  cases h3 : decode_parameter_values eo2.parameter_values with
  | error e => rw [h3] at h; cases h
  | ok params =>
  rw [h3] at h
  simp only [except_ok_bind] at h
  cases h4 : decode_output_artifacts cs.output_definitions.artifacts
      eo2.artifacts with
  | error e => rw [h4] at h; cases h
  | ok arts =>
  rw [h4] at h
  simp only [except_ok_bind] at h
  obtain ⟨v, hv, hparams⟩ := decode_parameter_values_get
    eo2.parameter_values params key (.numberValue q) h3 hp2
  simp only [pb2_value_to_python] at hv
  cases hv
  have hunion : dictGet (dictUnion params arts) key = some (.float q) := by
    rw [dictGet_dictUnion_of_not_mem_right params arts key
      (by rw [decode_output_artifacts_keys _ _ _ h4, ha2]; exact hnoart)]
    exact hparams
  obtain ⟨ps, hmem, hint⟩ := hdecl
  refine cast_go_casts_float (dictUnion params arts) out _ key q ?_ h hunion
  exact List.mem_map.mpr ⟨(key, ps),
    List.mem_filter.mpr ⟨hmem, by simp [hint]⟩, rfl⟩

/-- C2 witness: the wire number `3` declared integer normalizes to the
native int `3`. -/
theorem integer_outputs_are_ints_witness :
    dictGet [("x", PyValue.int (pytrunc 3))] "x" =
      some (.int (pytrunc 3)) ∧ pytrunc 3 = 3 :=
  ⟨integer_outputs_are_ints [] (fun _ => Except.ok .none)
      ⟨[("x", .numberValue 3)], []⟩ ⟨⟨[], []⟩⟩
      ⟨⟨[], []⟩, ⟨[("x", ⟨.NUMBER_INTEGER⟩)], []⟩, .unset⟩ "x" 3
      [("x", PyValue.int (pytrunc 3))]
      ⟨⟨.NUMBER_INTEGER⟩, by simp, rfl⟩ rfl
      (fun pf hpf => by cases hpf) (by simp) (by simp) rfl,
   by decide⟩

/-! ## Default binding at graph entry (C5). -/

theorem bind_defaults_go_spec (args : List (String × PyValue))
    (ps : List (String × InputParameterSpec)) (m : List (String × PyValue))
    (h : bind_defaults_go args ps = Except.ok m) :
    m.map Prod.fst = ps.map Prod.fst ∧
    ∀ k psp, dictGet ps k = some psp →
      (∀ v, dictGet args k = some v → dictGet m k = some v) ∧
      (dictGet args k = Option.none →
        ∃ d, pb2_value_to_python psp.default_value = Except.ok d ∧
          dictGet m k = some d) := by
  induction ps generalizing m with
  | nil =>
      simp only [bind_defaults_go] at h
      cases h
      exact ⟨rfl, fun k psp hk => by simp [dictGet_nil] at hk⟩
  | cons p rest ih =>
      obtain ⟨n, sp⟩ := p
      simp only [bind_defaults_go] at h
      cases ha : dictGet args n with
      | none =>
          simp only [ha] at h
          cases hd : pb2_value_to_python sp.default_value with
          | error e => rw [hd] at h; simp [except_error_bind] at h
          | ok d =>
              rw [hd] at h
              simp only [except_ok_bind] at h
              cases hrest : bind_defaults_go args rest with
              | error e => rw [hrest] at h; cases h
              | ok m' =>
                  rw [hrest] at h
                  simp only [except_ok_bind] at h
                  cases h
                  obtain ⟨hkeys, hvals⟩ := ih m' hrest
                  refine ⟨by simp [hkeys], fun k psp hk => ?_⟩
                  rw [dictGet_cons] at hk
                  by_cases hnk : n = k
                  · rw [if_pos hnk] at hk
                    cases hk
                    subst hnk
                    exact ⟨(fun v hv => by rw [hv] at ha; cases ha),
                      fun _ => ⟨d, hd, by rw [dictGet_cons, if_pos rfl]⟩⟩
                  · rw [if_neg hnk] at hk
                    obtain ⟨h1, h2⟩ := hvals k psp hk
                    exact ⟨fun v hv => by
                        rw [dictGet_cons, if_neg hnk]; exact h1 v hv,
                      fun hn => by
                        obtain ⟨d0, hd0, hg0⟩ := h2 hn
                        exact ⟨d0, hd0, by
                          rw [dictGet_cons, if_neg hnk]; exact hg0⟩⟩
      | some v0 =>
          simp only [ha] at h
          cases hrest : bind_defaults_go args rest with
          | error e => rw [hrest] at h; cases h
          | ok m' =>
              rw [hrest] at h
              simp only [except_ok_bind] at h
              cases h
              obtain ⟨hkeys, hvals⟩ := ih m' hrest
              refine ⟨by simp [hkeys], fun k psp hk => ?_⟩
              rw [dictGet_cons] at hk
              by_cases hnk : n = k
              · rw [if_pos hnk] at hk
                cases hk
                subst hnk
                refine ⟨fun v hv => ?_, fun hn => by rw [hn] at ha; cases ha⟩
                rw [hv] at ha
                cases ha
                rw [dictGet_cons, if_pos rfl]
              · rw [if_neg hnk] at hk
                obtain ⟨h1, h2⟩ := hvals k psp hk
                exact ⟨fun v hv => by
                    rw [dictGet_cons, if_neg hnk]; exact h1 v hv,
                  fun hn => by
                    obtain ⟨d0, hd0, hg0⟩ := h2 hn
                    exact ⟨d0, hd0, by
                      rw [dictGet_cons, if_neg hnk]; exact hg0⟩⟩

/-- C5 (amended): at graph entry the bound argument set consists of
exactly the declared parameter inputs — each resolving to the supplied
argument when present and to the decoded declared default otherwise.
Supplied arguments not declared as parameter inputs, artifact arguments
included, are dropped rather than written to the store. -/
theorem bind_defaults_parameters_only (dag_arguments : List (String × PyValue))
    (dag_inputs_spec : ComponentInputsSpec) (m : List (String × PyValue))
    (h : bind_defaults_to_dag_arguments dag_arguments dag_inputs_spec =
      Except.ok m) :
    m.map Prod.fst = dag_inputs_spec.parameters.map Prod.fst ∧
    ∀ k psp, dictGet dag_inputs_spec.parameters k = some psp →
      (∀ v, dictGet dag_arguments k = some v → dictGet m k = some v) ∧
      (dictGet dag_arguments k = Option.none →
        ∃ d, pb2_value_to_python psp.default_value = Except.ok d ∧
          dictGet m k = some d) :=
  bind_defaults_go_spec dag_arguments dag_inputs_spec.parameters m h

/-- C5 witness: a supplied parameter is kept, a missing one gets its
decoded default, and the key set is the declared parameter set. -/
theorem bind_defaults_parameters_only_witness :
    [("x", PyValue.float 1), ("y", PyValue.float 2)].map Prod.fst =
      [("x", (⟨.NUMBER_DOUBLE, .nullValue⟩ : InputParameterSpec)),
        ("y", ⟨.NUMBER_DOUBLE, .numberValue 2⟩)].map Prod.fst ∧
    dictGet [("x", PyValue.float 1), ("y", PyValue.float 2)] "x" =
      some (.float 1) ∧
    ∃ d, pb2_value_to_python (.numberValue 2) = Except.ok d ∧
      dictGet [("x", PyValue.float 1), ("y", PyValue.float 2)] "y" = some d := by
  have h := bind_defaults_parameters_only [("x", PyValue.float 1)]
    ⟨[("x", ⟨.NUMBER_DOUBLE, .nullValue⟩),
      ("y", ⟨.NUMBER_DOUBLE, .numberValue 2⟩)], []⟩
    [("x", PyValue.float 1), ("y", PyValue.float 2)] rfl
  exact ⟨h.1, (h.2 "x" ⟨.NUMBER_DOUBLE, .nullValue⟩ rfl).1 (.float 1) rfl,
    (h.2 "y" ⟨.NUMBER_DOUBLE, .numberValue 2⟩ rfl).2 rfl⟩

/-- C5 counterexample: a supplied artifact argument for a declared
artifact input of the graph level is NOT written into the I/O store as a
parent input — the task wired to that parent input fails to find it, so
the claimed "every supplied argument, including artifact arguments" is
false on the code. -/
theorem artifact_argument_not_seeded :
    run_dag 2 ⟨fun _ _ => ([], .SUCCESS), fun _ _ => ([], .SUCCESS)⟩
      [("comp", ⟨⟨[], []⟩, ⟨[], []⟩, .executor_label "exec"⟩)]
      [("exec", .container)]
      ⟨⟨[], ["a"]⟩, ⟨[], []⟩,
        .dag ⟨[("t1", ⟨"comp",
          ⟨[], [("in_art", .componentInputArtifact "a")]⟩, "", false⟩)],
          ⟨[], []⟩⟩⟩
      [("a", .artifact ⟨"schema", "uri", "meta"⟩)] IOStore.empty =
      Except.error ("Parent input not found: a", []) := rfl

/-! ## Fail-fast failure propagation (C1). -/

/-- Every dispatch event in the trace reported SUCCESS. -/
def allSuccess (tr : Trace) : Prop := ∀ e ∈ tr, e.2 = Status.SUCCESS

theorem allSuccess_nil : allSuccess [] := fun e he => absurd he (by simp)

theorem allSuccess_append {a b : Trace} (ha : allSuccess a)
    (hb : allSuccess b) : allSuccess (a ++ b) := by
  intro e he
  rcases List.mem_append.mp he with h | h
  · exact ha e h
  · exact hb e h

/-- The result invariant threaded through the runner: a SUCCESS result
carries no failing-task name and an all-success trace; a FAILURE result
names the last-dispatched task, whose event closes the trace with
FAILURE, everything before it having succeeded. -/
def ResultProp (r : RunResult) : Prop :=
  (r.2.1 = Status.SUCCESS → r.2.2.1 = Option.none ∧ allSuccess r.2.2.2) ∧
  (r.2.1 = Status.FAILURE → r.1 = [] ∧ ∃ n pre, r.2.2.1 = some n ∧
    r.2.2.2 = pre ++ [(n, Status.FAILURE)] ∧ allSuccess pre)

theorem execute_task_spec
    (recur : ComponentSpec → List (String × PyValue) →
      Except (String × Trace) RunResult)
    (collabs : Collaborators) (components : List (String × ComponentSpec))
    (executors : List (String × ExecutorSpec)) (dag_spec : DagSpec)
    (io_store : IOStore) (task_name : String)
    (hrec : ∀ cs args r, recur cs args = Except.ok r → ResultProp r)
    (outs : List (String × PyValue)) (st : Status) (fn : Option String)
    (ev : Trace)
    (h : execute_task recur collabs components executors dag_spec io_store
      task_name = Except.ok (outs, st, fn, ev)) :
    (st = Status.SUCCESS → fn = Option.none ∧ allSuccess ev) ∧
    (st = Status.FAILURE → ∃ n pre, fn = some n ∧
      ev = pre ++ [(n, Status.FAILURE)] ∧ allSuccess pre) := by
  simp only [execute_task] at h
  cases hval : validate_task_spec_not_loop_or_condition
      ((dictGet dag_spec.tasks task_name).getD default) with
  | error e => simp only [hval] at h; cases h
  | ok u =>
  simp only [hval] at h
  cases hcomp : dictGet components
      ((dictGet dag_spec.tasks task_name).getD default).component_ref_name with
  | none => simp only [hcomp] at h; cases h
  | some component_spec =>
  simp only [hcomp] at h
  cases himpl : component_spec.implementation with
  | dag d =>
      simp only [himpl] at h
      cases hargs : make_task_arguments
          ((dictGet dag_spec.tasks task_name).getD default).inputs io_store with
      | error e => simp only [hargs] at h; cases h
      | ok dag_arguments =>
          simp only [hargs] at h
          cases hr : recur component_spec dag_arguments with
          | error e => obtain ⟨e1, e2⟩ := e; simp only [hr] at h; cases h
          | ok r =>
              obtain ⟨o, s, f, tr⟩ := r
              simp only [hr] at h
              cases h
              exact ⟨fun hs => (hrec _ _ _ hr).1 hs,
                fun hf => ((hrec _ _ _ hr).2 hf).2⟩
  | executor_label executor_key =>
      simp only [himpl] at h
      cases hex : dictGet executors executor_key with
      | none => simp only [hex] at h; cases h
      | some executor_spec =>
      simp only [hex] at h
      cases hargs : make_task_arguments
          ((dictGet dag_spec.tasks task_name).getD default).inputs io_store with
      | error e => simp only [hargs] at h; cases h
      | ok task_arguments =>
      simp only [hargs] at h
      cases executor_spec with
      | importer =>
          cases hst : (collabs.run_importer
              ((dictGet dag_spec.tasks task_name).getD
                default).component_ref_name task_arguments).2 with
          | SUCCESS =>
              simp only [hst] at h
              cases h
              refine ⟨fun _ => ⟨by simp, ?_⟩, fun hf => by cases hf⟩
              intro e he
              rw [List.mem_singleton] at he
              rw [he]
          | FAILURE =>
              simp only [hst] at h
              cases h
              exact ⟨(fun hs => by cases hs),
                fun _ => ⟨task_name, [], by simp, rfl, allSuccess_nil⟩⟩
      | container =>
          cases hst : (collabs.run_single_task_implementation
              ((dictGet dag_spec.tasks task_name).getD
                default).component_ref_name task_arguments).2 with
          | SUCCESS =>
              simp only [hst] at h
              cases h
              refine ⟨fun _ => ⟨by simp, ?_⟩, fun hf => by cases hf⟩
              intro e he
              rw [List.mem_singleton] at he
              rw [he]
          | FAILURE =>
              simp only [hst] at h
              cases h
              exact ⟨(fun hs => by cases hs),
                fun _ => ⟨task_name, [], by simp, rfl, allSuccess_nil⟩⟩
      | other => cases h
  | unset => simp only [himpl] at h; cases h

theorem run_tasks_spec
    (recur : ComponentSpec → List (String × PyValue) →
      Except (String × Trace) RunResult)
    (collabs : Collaborators) (components : List (String × ComponentSpec))
    (executors : List (String × ExecutorSpec)) (dag_spec : DagSpec)
    (hrec : ∀ cs args r, recur cs args = Except.ok r → ResultProp r) :
    ∀ (tasks : List String) (io_store : IOStore) (trace : Trace)
      (outs : List (String × PyValue)) (st : Status) (fn : Option String)
      (tr : Trace), allSuccess trace →
      run_tasks recur collabs components executors dag_spec io_store trace
        tasks = Except.ok (outs, st, fn, tr) →
      (st = Status.SUCCESS → fn = Option.none ∧ allSuccess tr) ∧
      (st = Status.FAILURE → outs = [] ∧ ∃ n pre, fn = some n ∧
        tr = pre ++ [(n, Status.FAILURE)] ∧ allSuccess pre) := by
  intro tasks
  induction tasks with
  | nil =>
      intro io_store trace outs st fn tr htrace h
      simp only [run_tasks] at h
      cases hout : get_dag_outputs dag_spec.outputs io_store with
      | error e => simp only [hout] at h; cases h
      | ok dag_outputs =>
          simp only [hout] at h
          cases h
          exact ⟨fun _ => ⟨rfl, htrace⟩, fun hf => by cases hf⟩
  | cons task_name rest ih =>
      intro io_store trace outs st fn tr htrace h
      simp only [run_tasks] at h
      cases het : execute_task recur collabs components executors dag_spec
          io_store task_name with
      | error e => obtain ⟨e1, e2⟩ := e; simp only [het] at h; cases h
      | ok r =>
          obtain ⟨outs0, st0, fn0, ev⟩ := r
          simp only [het] at h
          have hspec := execute_task_spec recur collabs components executors
            dag_spec io_store task_name hrec outs0 st0 fn0 ev het
          cases st0 with
          | FAILURE =>
              cases h
              refine ⟨(fun hs => by cases hs), fun _ => ⟨rfl, ?_⟩⟩
              obtain ⟨n, pre, hfn, hev, hpre⟩ := hspec.2 rfl
              exact ⟨n, trace ++ pre, hfn,
                by rw [hev, List.append_assoc],
                allSuccess_append htrace hpre⟩
          | SUCCESS =>
              cases hput : put_task_outputs io_store task_name outs0 with
              | error e => simp only [hput] at h; cases h
              | ok io_store' =>
                  simp only [hput] at h
                  exact ih io_store' (trace ++ ev) outs st fn tr
                    (allSuccess_append htrace (hspec.1 rfl).2) h

theorem run_dag_spec :
    ∀ (fuel : ℕ) (collabs : Collaborators)
      (components : List (String × ComponentSpec))
      (executors : List (String × ExecutorSpec))
      (dag_component_spec : ComponentSpec)
      (dag_arguments : List (String × PyValue)) (io_store : IOStore)
      (r : RunResult),
      run_dag fuel collabs components executors dag_component_spec
        dag_arguments io_store = Except.ok r → ResultProp r := by
  intro fuel
  induction fuel with
  | zero => intro _ _ _ _ _ _ r h; cases h
  | succ fuel ih =>
      intro collabs components executors dcs args store r h
      simp only [run_dag] at h
      cases hbd : bind_defaults_to_dag_arguments args
          dcs.input_definitions with
      | error e => simp only [hbd] at h; cases h
      | ok dawd =>
      simp only [hbd] at h
      cases hts : topological_sort_tasks dcs.dag.tasks with
      | error e => simp only [hts] at h; cases h
      | ok sorted_tasks =>
          obtain ⟨outs, st, fn, tr⟩ := r
          simp only [hts] at h
          have := run_tasks_spec _ collabs components executors dcs.dag
            (fun cs a r hr => ih collabs components executors cs a
              IOStore.empty r hr)
            sorted_tasks.reverse _ [] outs st fn tr allSuccess_nil h
          exact this

/-- C1: whenever a `run_dag` call completes with FAILURE, the output map
is empty, the reported failing-task name is the name of the leaf task
whose dispatch actually returned FAILURE (at whatever recursion depth it
ran, not an enclosing graph-level task), that dispatch is the last event
of the run — no task sequenced after it, at any level, was dispatched —
and every earlier dispatch succeeded. -/
theorem failure_fail_fast (fuel : ℕ) (collabs : Collaborators)
    (components : List (String × ComponentSpec))
    (executors : List (String × ExecutorSpec))
    (dag_component_spec : ComponentSpec)
    (dag_arguments : List (String × PyValue)) (io_store : IOStore)
    (outs : List (String × PyValue)) (fn : Option String) (tr : Trace)
    (h : run_dag fuel collabs components executors dag_component_spec
      dag_arguments io_store =
      Except.ok (outs, Status.FAILURE, fn, tr)) :
    outs = [] ∧ ∃ n pre, fn = some n ∧
      tr = pre ++ [(n, Status.FAILURE)] ∧ allSuccess pre := by
  exact (run_dag_spec fuel collabs components executors dag_component_spec
    dag_arguments io_store (outs, Status.FAILURE, fn, tr) h).2 rfl

/-- C1 witness: the A → B failure happens inside a nested sub-graph task
`X`; the top level reports `B` — the leaf that failed — with empty
outputs, and dispatches nothing after `B`. -/
theorem failure_fail_fast_witness :
    ([] : List (String × PyValue)) = [] ∧
    ∃ n pre, (some "B" : Option String) = some n ∧
      ([("A", Status.SUCCESS), ("B", Status.FAILURE)] : Trace) =
        pre ++ [(n, Status.FAILURE)] ∧ allSuccess pre :=
  failure_fail_fast 3
    ⟨fun _ _ => ([], .SUCCESS),
     fun cn _ => if cn = "compB" then ([], .FAILURE)
       else ([("o", .float 1)], .SUCCESS)⟩
    [("compA", ⟨⟨[], []⟩, ⟨[], []⟩, .executor_label "ex"⟩),
     ("compB", ⟨⟨[], []⟩, ⟨[], []⟩, .executor_label "ex"⟩),
     ("sub", ⟨⟨[], []⟩, ⟨[], []⟩,
       .dag ⟨[("A", ⟨"compA", ⟨[], []⟩, "", false⟩),
         ("B", ⟨"compB", ⟨[("in_p", .taskOutputParameter "A" "o")], []⟩,
           "", false⟩)], ⟨[], []⟩⟩⟩)]
    [("ex", .container)]
    ⟨⟨[], []⟩, ⟨[], []⟩,
      .dag ⟨[("X", ⟨"sub", ⟨[], []⟩, "", false⟩)], ⟨[], []⟩⟩⟩
    [] IOStore.empty [] (some "B")
    [("A", Status.SUCCESS), ("B", Status.FAILURE)] rfl

/-! ## Control-flow rejection (C4). -/

theorem pickReady_split (placed : List String) :
    ∀ (pending : List (String × TaskSpec)) (c : String × TaskSpec)
      (rest' : List (String × TaskSpec)),
      pickReady placed pending = some (c, rest') →
      taskReady placed c = true ∧
        ∃ l1 l2, pending = l1 ++ c :: l2 ∧ rest' = l1 ++ l2 := by
  intro pending
  induction pending with
  | nil => intro c rest' h; cases h
  | cons p ps ih =>
      intro c rest' h
      simp only [pickReady] at h
      by_cases hr : taskReady placed p
      · rw [if_pos hr] at h
        injection h with h1
        injection h1 with hc hrest
        subst hc
        subst hrest
        exact ⟨hr, [], ps, rfl, rfl⟩
      · rw [if_neg hr] at h
        cases hp : pickReady placed ps with
        | none => rw [hp] at h; cases h
        | some pr =>
            rw [hp] at h
            obtain ⟨c0, r0⟩ := pr
            injection h with h1
            injection h1 with hc hrest
            subst hc
            subst hrest
            obtain ⟨hready, l1, l2, hps, hr0⟩ := ih c0 r0 hp
            exact ⟨hready, p :: l1, l2, by rw [hps]; rfl,
              by rw [hr0]; rfl⟩

theorem topoGo_complete :
    ∀ (fuel : ℕ) (placed : List String)
      (pending : List (String × TaskSpec)) (ord : List String),
      topoGo fuel placed pending = Except.ok ord →
      ∀ k, k ∈ placed ∨ k ∈ pending.map Prod.fst → k ∈ ord := by
  intro fuel
  induction fuel with
  | zero =>
      intro placed pending ord h k hk
      cases pending with
      | nil =>
          simp only [topoGo] at h
          cases h
          rcases hk with h1 | h1
          · exact h1
          · simp at h1
      | cons p ps => cases h
  | succ fuel ih =>
      intro placed pending ord h k hk
      cases pending with
      | nil =>
          simp only [topoGo] at h
          cases h
          rcases hk with h1 | h1
          · exact h1
          · simp at h1
      | cons p ps =>
          simp only [topoGo] at h
          cases hp : pickReady placed (p :: ps) with
          | none => rw [hp] at h; cases h
          | some pr =>
              rw [hp] at h
              obtain ⟨c, rest'⟩ := pr
              obtain ⟨hready, l1, l2, hpend, hrest⟩ :=
                pickReady_split placed (p :: ps) c rest' hp
              refine ih (placed ++ [c.1]) rest' ord h k ?_
              rcases hk with h1 | h1
              · exact Or.inl (List.mem_append.mpr (Or.inl h1))
              · rw [hpend] at h1
                simp only [List.map_append, List.map_cons,
                  List.mem_append, List.mem_cons] at h1
                rcases h1 with h1 | h1 | h1
                · exact Or.inr (by
                    rw [hrest]
                    simp only [List.map_append, List.mem_append]
                    exact Or.inl h1)
                · exact Or.inl (List.mem_append.mpr (Or.inr (by simp [h1])))
                · exact Or.inr (by
                    rw [hrest]
                    simp only [List.map_append, List.mem_append]
                    exact Or.inr h1)

theorem run_tasks_bad_task
    (recur : ComponentSpec → List (String × PyValue) →
      Except (String × Trace) RunResult)
    (collabs : Collaborators) (components : List (String × ComponentSpec))
    (executors : List (String × ExecutorSpec)) (dag_spec : DagSpec)
    (t : String) (ts : TaskSpec) (msg : String)
    (hmem : dictGet dag_spec.tasks t = some ts)
    (hval : validate_task_spec_not_loop_or_condition ts = Except.error msg) :
    ∀ (tasks : List String) (io_store : IOStore) (trace : Trace)
      (res : RunResult), t ∈ tasks →
      run_tasks recur collabs components executors dag_spec io_store trace
        tasks = Except.ok res → res.2.1 = Status.FAILURE := by
  intro tasks
  induction tasks with
  | nil => intro _ _ _ ht _; cases ht
  | cons task_name rest ih =>
      intro io_store trace res ht h
      simp only [run_tasks] at h
      by_cases htn : task_name = t
      · subst htn
        have hexec : execute_task recur collabs components executors dag_spec
            io_store task_name = Except.error (msg, []) := by
          simp only [execute_task, hmem, Option.getD, hval]
        rw [hexec] at h
        cases h
      · cases het : execute_task recur collabs components executors dag_spec
            io_store task_name with
        | error e => obtain ⟨e1, e2⟩ := e; simp only [het] at h; cases h
        | ok r =>
            obtain ⟨outs0, st0, fn0, ev⟩ := r
            simp only [het] at h
            cases st0 with
            | FAILURE =>
                cases h
                rfl
            | SUCCESS =>
                cases hput : put_task_outputs io_store task_name outs0 with
                | error e => simp only [hput] at h; cases h
                | ok io_store' =>
                    simp only [hput] at h
                    have htr : t ∈ rest := by
                      rcases List.mem_cons.mp ht with h1 | h1
                      · exact absurd h1.symm htn
                      · exact h1
                    exact ih io_store' (trace ++ ev) res htr h

/-- C4 (amended): a task spec carrying a conditional trigger or a loop
iterator is rejected by validation with a hard error, and a graph level
containing such a task can never complete with SUCCESS: the offending
task is rejected when reached — though tasks sequenced before it may
already have been dispatched, and an earlier failure may end the run
before the offending task is even reached. -/
theorem control_flow_rejected (fuel : ℕ) (collabs : Collaborators)
    (components : List (String × ComponentSpec))
    (executors : List (String × ExecutorSpec))
    (dag_component_spec : ComponentSpec)
    (dag_arguments : List (String × PyValue)) (io_store : IOStore)
    (t : String) (ts : TaskSpec)
    (hmem : dictGet dag_component_spec.dag.tasks t = some ts)
    (hbad : ts.trigger_policy_condition ≠ "" ∨ ts.has_iterator = true) :
    (∃ msg, validate_task_spec_not_loop_or_condition ts =
      Except.error msg) ∧
    ∀ r, run_dag fuel collabs components executors dag_component_spec
      dag_arguments io_store = Except.ok r → r.2.1 = Status.FAILURE := by
  have hvalid : ∃ msg, validate_task_spec_not_loop_or_condition ts =
      Except.error msg := by
    by_cases hc : ts.trigger_policy_condition = ""
    · rcases hbad with h1 | h1
      · exact absurd hc h1
      · exact ⟨"dsl.ParallelFor is not supported by local pipeline execution.",
          by simp [validate_task_spec_not_loop_or_condition, hc, h1]⟩
    · exact ⟨"dsl.Condition is not supported by local pipeline execution.",
        by simp [validate_task_spec_not_loop_or_condition, hc]⟩
  refine ⟨hvalid, fun r h => ?_⟩
  obtain ⟨msg, hval⟩ := hvalid
  cases fuel with
  | zero => cases h
  | succ fuel =>
      simp only [run_dag] at h
      cases hbd : bind_defaults_to_dag_arguments dag_arguments
          dag_component_spec.input_definitions with
      | error e => simp only [hbd] at h; cases h
      | ok dawd =>
      simp only [hbd] at h
      cases hts : topological_sort_tasks dag_component_spec.dag.tasks with
      | error e => simp only [hts] at h; cases h
      | ok sorted_tasks =>
          simp only [hts] at h
          have hmemsort : t ∈ sorted_tasks.reverse := by
            simp only [topological_sort_tasks] at hts
            cases hgo : topoGo dag_component_spec.dag.tasks.length []
                dag_component_spec.dag.tasks with
            | error e => rw [hgo] at hts; cases hts
            | ok ord0 =>
                rw [hgo] at hts
                simp only [except_map_ok] at hts
                cases hts
                rw [List.reverse_reverse]
                exact topoGo_complete _ [] _ ord0 hgo t
                  (Or.inr (mem_map_fst_of_dictGet_some hmem))
          exact run_tasks_bad_task _ collabs components executors
            dag_component_spec.dag t ts msg hmem hval sorted_tasks.reverse
            _ [] r hmemsort h

/-- C4 witness: in a graph whose second task carries a conditional
trigger, validation rejects that task's spec, and a run in which the
first task fails ends in FAILURE (never SUCCESS) without ever reaching
the conditional task. -/
theorem control_flow_rejected_witness :
    (∃ msg, validate_task_spec_not_loop_or_condition
      ⟨"compB", ⟨[("in_p", .taskOutputParameter "a" "o")], []⟩, "cond", false⟩ =
        Except.error msg) ∧
    (([], Status.FAILURE, some "a",
      [("a", Status.FAILURE)]) : RunResult).2.1 = Status.FAILURE :=
  ⟨(control_flow_rejected 2 ⟨fun _ _ => ([], .FAILURE), fun _ _ => ([], .FAILURE)⟩
      [("compA", ⟨⟨[], []⟩, ⟨[], []⟩, .executor_label "ex"⟩),
       ("compB", ⟨⟨[], []⟩, ⟨[], []⟩, .executor_label "ex"⟩)]
      [("ex", .container)]
      ⟨⟨[], []⟩, ⟨[], []⟩,
        .dag ⟨[("a", ⟨"compA", ⟨[], []⟩, "", false⟩),
          ("b", ⟨"compB", ⟨[("in_p", .taskOutputParameter "a" "o")], []⟩,
            "cond", false⟩)], ⟨[], []⟩⟩⟩
      [] IOStore.empty "b"
      ⟨"compB", ⟨[("in_p", .taskOutputParameter "a" "o")], []⟩, "cond", false⟩
      rfl (Or.inl (by simp))).1,
   (control_flow_rejected 2 ⟨fun _ _ => ([], .FAILURE), fun _ _ => ([], .FAILURE)⟩
      [("compA", ⟨⟨[], []⟩, ⟨[], []⟩, .executor_label "ex"⟩),
       ("compB", ⟨⟨[], []⟩, ⟨[], []⟩, .executor_label "ex"⟩)]
      [("ex", .container)]
      ⟨⟨[], []⟩, ⟨[], []⟩,
        .dag ⟨[("a", ⟨"compA", ⟨[], []⟩, "", false⟩),
          ("b", ⟨"compB", ⟨[("in_p", .taskOutputParameter "a" "o")], []⟩,
            "cond", false⟩)], ⟨[], []⟩⟩⟩
      [] IOStore.empty "b"
      ⟨"compB", ⟨[("in_p", .taskOutputParameter "a" "o")], []⟩, "cond", false⟩
      rfl (Or.inl (by simp))).2
      ([], Status.FAILURE, some "a", [("a", Status.FAILURE)]) rfl⟩

/-- C4 counterexample: the graph `a → b` where only `b` carries a
conditional trigger is NOT rejected before any task executes: task `a` is
dispatched (and succeeds) before the malformed-graph error is raised on
reaching `b`, as the error's dispatch trace shows. -/
theorem condition_rejected_mid_run :
    run_dag 2
      ⟨fun _ _ => ([], .SUCCESS),
       fun _ _ => ([("o", .float 1)], .SUCCESS)⟩
      [("compA", ⟨⟨[], []⟩, ⟨[], []⟩, .executor_label "ex"⟩),
       ("compB", ⟨⟨[], []⟩, ⟨[], []⟩, .executor_label "ex"⟩)]
      [("ex", .container)]
      ⟨⟨[], []⟩, ⟨[], []⟩,
        .dag ⟨[("a", ⟨"compA", ⟨[], []⟩, "", false⟩),
          ("b", ⟨"compB", ⟨[("in_p", .taskOutputParameter "a" "o")], []⟩,
            "cond", false⟩)], ⟨[], []⟩⟩⟩
      [] IOStore.empty =
      Except.error
        ("dsl.Condition is not supported by local pipeline execution.",
          [("a", Status.SUCCESS)]) := rfl

/-! ## Correctness of the topological task sequencer (C3). -/

theorem nodup_keys_eq {l : List (String × TaskSpec)}
    (hnd : (l.map Prod.fst).Nodup) :
    ∀ p q, p ∈ l → q ∈ l → p.1 = q.1 → p = q := by
  induction l with
  | nil => intro p q hp _ _; cases hp
  | cons x xs ih =>
      rw [List.map_cons, List.nodup_cons] at hnd
      intro p q hp hq heq
      rcases List.mem_cons.mp hp with h1 | h1 <;>
        rcases List.mem_cons.mp hq with h2 | h2
      · rw [h1, h2]
      · exfalso
        apply hnd.1
        rw [h1] at heq
        rw [heq]
        exact List.mem_map_of_mem _ h2
      · exfalso
        apply hnd.1
        rw [h2] at heq
        rw [← heq]
        exact List.mem_map_of_mem _ h1
      · exact ih hnd.2 p q h1 h2 heq

theorem pickReady_eq_none (placed : List String) :
    ∀ (pending : List (String × TaskSpec)),
      pickReady placed pending = Option.none →
      ∀ p ∈ pending, taskReady placed p = false := by
  intro pending
  induction pending with
  | nil => intro _ p hp; cases hp
  | cons x xs ih =>
      intro h p hp
      simp only [pickReady] at h
      by_cases hr : taskReady placed x
      · rw [if_pos hr] at h; cases h
      · rw [if_neg hr] at h
        rcases List.mem_cons.mp hp with h1 | h1
        · rw [h1]
          exact Bool.eq_false_iff.mpr hr
        · cases hpk : pickReady placed xs with
          | none => exact ih hpk p h1
          | some pr => rw [hpk] at h; cases h

theorem exists_min_rank (rank : String → ℕ) :
    ∀ (l : List (String × TaskSpec)), l ≠ [] →
      ∃ m ∈ l, ∀ q ∈ l, rank m.1 ≤ rank q.1 := by
  intro l
  induction l with
  | nil => intro h; exact absurd rfl h
  | cons x xs ih =>
      intro _
      cases xs with
      | nil =>
          refine ⟨x, by simp, ?_⟩
          intro q hq
          rcases List.mem_cons.mp hq with h1 | h1
          · rw [h1]
          · cases h1
      | cons y ys =>
          obtain ⟨m0, hm0, hmin⟩ := ih (by simp)
          by_cases hx : rank x.1 ≤ rank m0.1
          · refine ⟨x, by simp, ?_⟩
            intro q hq
            rcases List.mem_cons.mp hq with h1 | h1
            · rw [h1]
            · exact le_trans hx (hmin q h1)
          · refine ⟨m0, List.mem_cons.mpr (Or.inr hm0), ?_⟩
            intro q hq
            rcases List.mem_cons.mp hq with h1 | h1
            · rw [h1]; exact le_of_not_le hx
            · exact hmin q h1

theorem indexOf_lt_of_mem_take :
    ∀ (l : List String) (n : ℕ) (a : String),
      a ∈ l.take n → List.indexOf a l < n := by
  intro l
  induction l with
  | nil => intro n a h; simp at h
  | cons b l' ih =>
      intro n a h
      cases n with
      | zero => simp at h
      | succ m =>
          rw [List.take_succ_cons] at h
          by_cases hab : b = a
          · subst hab
            rw [List.indexOf_cons_self]
            exact Nat.succ_pos m
          · rcases List.mem_cons.mp h with h1 | h1
            · exact absurd h1.symm hab
            · rw [List.indexOf_cons_ne _ hab]
              exact Nat.succ_lt_succ (ih m a h1)

theorem topoGo_ok_spec (tasks : List (String × TaskSpec))
    (rank : String → ℕ)
    (hnd : (tasks.map Prod.fst).Nodup)
    (hwf : ∀ p ∈ tasks, ∀ a ∈ taskDependencies p.2.inputs,
      a ∈ tasks.map Prod.fst)
    (hrank : ∀ p ∈ tasks, ∀ a ∈ taskDependencies p.2.inputs,
      rank a < rank p.1) :
    ∀ (fuel : ℕ) (placed : List String)
      (pending : List (String × TaskSpec)),
      pending.length ≤ fuel →
      (∀ p ∈ pending, p ∈ tasks) →
      List.Perm (placed ++ pending.map Prod.fst) (tasks.map Prod.fst) →
      (∀ p ∈ tasks, ∀ i, placed.get? i = some p.1 →
        ∀ a ∈ taskDependencies p.2.inputs, a ∈ placed.take i) →
      ∃ ord, topoGo fuel placed pending = Except.ok ord ∧
        List.Perm ord (tasks.map Prod.fst) ∧
        (∀ p ∈ tasks, ∀ i, ord.get? i = some p.1 →
          ∀ a ∈ taskDependencies p.2.inputs, a ∈ ord.take i) := by
  intro fuel
  induction fuel with
  | zero =>
      intro placed pending hlen hsub hperm hclosed
      have hnil : pending = [] :=
        List.eq_nil_of_length_eq_zero (Nat.le_zero.mp hlen)
      subst hnil
      exact ⟨placed, by simp [topoGo], by simpa using hperm, hclosed⟩
  | succ fuel ih =>
      intro placed pending hlen hsub hperm hclosed
      cases pending with
      | nil => exact ⟨placed, by simp [topoGo], by simpa using hperm, hclosed⟩
      | cons p0 ps =>
          obtain ⟨m, hm, hmin⟩ := exists_min_rank rank (p0 :: ps) (by simp)
          have hready : taskReady placed m = true := by
            rw [taskReady, List.all_eq_true]
            intro d hd
            have hdk : d ∈ tasks.map Prod.fst := hwf m (hsub m hm) d hd
            have hdr : rank d < rank m.1 := hrank m (hsub m hm) d hd
            have hdnp : d ∉ (p0 :: ps).map Prod.fst := by
              intro hmem
              obtain ⟨q, hq, hqd⟩ := List.mem_map.mp hmem
              have hle := hmin q hq
              rw [hqd] at hle
              exact absurd hdr (not_lt.mpr hle)
            have hdp : d ∈ placed ++ (p0 :: ps).map Prod.fst :=
              hperm.mem_iff.mpr hdk
            rcases List.mem_append.mp hdp with h1 | h1
            · exact List.elem_eq_true_of_mem h1
            · exact absurd h1 hdnp
          cases hp : pickReady placed (p0 :: ps) with
          | none =>
              exact absurd hready
                (by rw [pickReady_eq_none placed _ hp m hm]; simp)
          | some pr =>
              obtain ⟨c, rest'⟩ := pr
              obtain ⟨hcready, l1, l2, hpend, hrest⟩ :=
                pickReady_split placed _ c rest' hp
              have hlen' : rest'.length ≤ fuel := by
                have h1 := congrArg List.length hpend
                have h2 := congrArg List.length hrest
                simp only [List.length_append, List.length_cons] at h1 h2
                simp only [List.length_cons] at hlen
                omega
              have hsub' : ∀ p ∈ rest', p ∈ tasks := by
                intro p hp'
                rw [hrest] at hp'
                refine hsub p ?_
                rw [hpend]
                rcases List.mem_append.mp hp' with h1 | h1
                · exact List.mem_append.mpr (Or.inl h1)
                · exact List.mem_append.mpr (Or.inr (List.mem_cons.mpr
                    (Or.inr h1)))
              have hcmem : c ∈ tasks := by
                refine hsub c ?_
                rw [hpend]
                exact List.mem_append.mpr (Or.inr (List.mem_cons.mpr
                  (Or.inl rfl)))
              have hperm' :
                  List.Perm ((placed ++ [c.1]) ++ rest'.map Prod.fst)
                    (tasks.map Prod.fst) := by
                have hbase : List.Perm
                    (placed ++ ((l1 ++ c :: l2).map Prod.fst))
                    (tasks.map Prod.fst) := by
                  rw [← hpend]
                  exact hperm
                refine List.Perm.trans ?_ hbase
                rw [hrest, List.append_assoc]
                simp only [List.map_append, List.map_cons,
                  List.singleton_append]
                exact List.Perm.append_left placed List.perm_middle.symm
              have hclosed' : ∀ p ∈ tasks, ∀ i,
                  (placed ++ [c.1]).get? i = some p.1 →
                  ∀ a ∈ taskDependencies p.2.inputs,
                    a ∈ (placed ++ [c.1]).take i := by
                intro q hq i hi a ha
                by_cases hilt : i < placed.length
                · rw [List.get?_append hilt] at hi
                  rw [List.take_append_of_le_length (le_of_lt hilt)]
                  exact hclosed q hq i hi a ha
                · have hige : placed.length ≤ i := le_of_not_lt hilt
                  rw [List.get?_append_right hige] at hi
                  cases hd : i - placed.length with
                  | zero =>
                      rw [hd] at hi
                      simp only [List.get?] at hi
                      injection hi with hqc
                      have hieq : i = placed.length := by omega
                      have hqec : q = c :=
                        nodup_keys_eq hnd q c hq hcmem hqc.symm
                      subst hqec
                      rw [hieq, List.take_append_of_le_length le_rfl,
                        List.take_length]
                      rw [taskReady, List.all_eq_true] at hcready
                      exact List.mem_of_elem_eq_true (hcready a ha)
                  | succ j =>
                      rw [hd] at hi
                      simp only [List.get?] at hi
                      cases hi
              obtain ⟨ord, hord, hp2, hc2⟩ := ih (placed ++ [c.1]) rest'
                hlen' hsub' hperm' hclosed'
              refine ⟨ord, ?_, hp2, hc2⟩
              simp only [topoGo, hp]
              exact hord

/-- C3: for every well-formed acyclic task set (dependencies resolve
within the set, names are unique, and a ranking witnesses acyclicity) the
sequencer succeeds, and in the dispatch order consumed by the DAG runner
(the returned stack reversed) every task appears strictly after every
task whose outputs it directly consumes: index(A) < index(B) for each
dependency edge (A, B). -/
theorem topological_order_respects_dependencies
    (tasks : List (String × TaskSpec))
    (hnd : (tasks.map Prod.fst).Nodup)
    (hwf : ∀ p ∈ tasks, ∀ a ∈ taskDependencies p.2.inputs,
      a ∈ tasks.map Prod.fst)
    (hacyc : ∃ rank : String → ℕ, ∀ p ∈ tasks,
      ∀ a ∈ taskDependencies p.2.inputs, rank a < rank p.1) :
    ∃ stk, topological_sort_tasks tasks = Except.ok stk ∧
      ∀ p ∈ tasks, ∀ a ∈ taskDependencies p.2.inputs,
        List.indexOf a stk.reverse < List.indexOf p.1 stk.reverse := by
  obtain ⟨rank, hrank⟩ := hacyc
  obtain ⟨ord, hord, hperm, hclosed⟩ := topoGo_ok_spec tasks rank hnd hwf
    hrank tasks.length [] tasks le_rfl (fun p hp => hp) (by simp)
    (fun p _ i hi => by simp at hi)
  refine ⟨ord.reverse,
    by simp [topological_sort_tasks, hord, except_map_ok], ?_⟩
  intro p hp a ha
  rw [List.reverse_reverse]
  have hpmem : p.1 ∈ ord := hperm.mem_iff.mpr (List.mem_map_of_mem _ hp)
  have hget : ord.get? (List.indexOf p.1 ord) = some p.1 :=
    List.indexOf_get? hpmem
  exact indexOf_lt_of_mem_take ord _ a
    (hclosed p hp (List.indexOf p.1 ord) hget a ha)

/-- C3 witness: the chain C ← B ← A declared in reverse order is
sequenced so that each task's producer is dispatched first. -/
theorem topological_order_respects_dependencies_witness :
    ∃ stk, topological_sort_tasks
        [("C", ⟨"comp", ⟨[("i", .taskOutputParameter "B" "o")], []⟩, "",
          false⟩),
         ("B", ⟨"comp", ⟨[("i", .taskOutputParameter "A" "o")], []⟩, "",
          false⟩),
         ("A", ⟨"comp", ⟨[], []⟩, "", false⟩)] = Except.ok stk ∧
      ∀ p ∈ [("C", (⟨"comp", ⟨[("i", .taskOutputParameter "B" "o")], []⟩,
          "", false⟩ : TaskSpec)),
         ("B", ⟨"comp", ⟨[("i", .taskOutputParameter "A" "o")], []⟩, "",
          false⟩),
         ("A", ⟨"comp", ⟨[], []⟩, "", false⟩)],
        ∀ a ∈ taskDependencies p.2.inputs,
          List.indexOf a stk.reverse < List.indexOf p.1 stk.reverse :=
  topological_order_respects_dependencies _ (by decide) (by decide)
    ⟨fun s => if s = "A" then 0 else if s = "B" then 1 else 2, by decide⟩

end KfpLocal
